import Mathlib

/-!
# zkernel: the ZMTP v3 encoder

A shallow embedding of `src/zmtp_v3_encoder.c` and of `encoder_destroy` of
`src/encoder.c`, and the properties of the encoder contract checked against
it.

Conventions of the embedding.

* A C function that writes through `self` or through an out-parameter is a
  Lean function that takes the old values and returns the new ones.
* `assert (e)` with `e` false aborts the program: an operation with an
  assertion that can fail returns an `Option`, and `none` is that abort.
  `some r` is a return to the caller, `r.ret` being the C return value.
  `assert (self)` cannot fail here, `self` being an encoder and not a pointer.
* `uint8_t` and `size_t` values are natural numbers; a cast to `uint8_t` is
  `% 256`, a conversion to `uint64_t` is `% 2 ^ 64`.
* `bytes_left -= n` is only executed with `n ≤ bytes_left` (the count
  returned by `iobuf_write` is at most the count offered, and `s_advance`
  checks), so truncated subtraction on `Nat` agrees with the C arithmetic.
-/

namespace zkernel

/-! ## Collaborators that are not part of the sources -/

/-- Modelled from the spec: `pdu.h` is missing.  A PDU exposes a `data`
pointer and a `size`; the bytes behind the pointer are `pdu_data`. -/
structure pdu_t where
  pdu_data : List Nat
  pdu_size : Nat
deriving DecidableEq, Repr

/-- Modelled from the spec: `pdu_destroy` is missing.  It destroys the PDU the
reference holds and nulls the reference; on a null reference nothing is
destroyed.  The result is the new value of the reference and the PDUs that
were destroyed. -/
def pdu_destroy (pdu_p : Option pdu_t) : Option pdu_t × List pdu_t :=
  match pdu_p with
  | none => (none, [])
  | some p => (none, [p])

/-- Modelled from the spec: `iobuf.h` is missing.  A sink that accepts some
prefix of the bytes offered by each write.  `data` is what it has accepted so
far; `accept` lists, for each coming write, the largest count the sink
takes on that write (nothing once the list is used up). -/
structure iobuf_t where
  data : List Nat
  accept : List Nat
deriving DecidableEq, Repr

/-- Modelled from the spec: `iobuf_write (sink, pointer, length)` is missing.
It copies a prefix of the `n` bytes at the pointer into the sink and returns
the count written, which is at most `n`.  `src` is the memory behind the
pointer. -/
def iobuf_write (self : iobuf_t) (src : List Nat) (n : Nat) : iobuf_t × Nat :=
  let k := min n (self.accept.headD 0)
  ({ data := self.data ++ src.take k, accept := self.accept.tail }, k)

/-- Modelled from the spec: `encoder.h` is missing, and with it the values of
the status-word constants `ZKERNEL_ENCODER_READY`, `ZKERNEL_ENCODER_READ_OK`
and `ZKERNEL_ENCODER_BUFFER_MASK`.  They are parameters of every operation
that writes a status. -/
structure encoder_consts where
  ZKERNEL_ENCODER_READY : Nat
  ZKERNEL_ENCODER_READ_OK : Nat
  ZKERNEL_ENCODER_BUFFER_MASK : Nat
deriving DecidableEq, Repr

/-- The functions of `zmtp_v3_encoder.c` an operation table can point to. -/
inductive encoder_fn where
  | s_encode
  | s_read
  | s_buffer
  | s_advance
  | s_status
  | s_destroy
deriving DecidableEq, Repr

/-- Modelled from the spec: `struct encoder_ops` of the missing `encoder.h`,
one function pointer for each of the six operations; `none` is a null
function pointer. -/
structure encoder_ops_t where
  encode : Option encoder_fn
  read : Option encoder_fn
  buffer : Option encoder_fn
  advance : Option encoder_fn
  status : Option encoder_fn
  destroy : Option encoder_fn
deriving DecidableEq, Repr

/-- Modelled from the spec: `encoder_t` of the missing `encoder.h`, the base
object that carries the operation table. -/
structure encoder_t where
  ops : encoder_ops_t
deriving DecidableEq, Repr

/-! ## `zmtp_v3_encoder.c` -/

/-- `#define WAITING_FOR_PDU 0` -/
def WAITING_FOR_PDU : Int := 0

/-- `#define READING_HEADER 1` -/
def READING_HEADER : Int := 1

/-- `#define READING_BODY 2` -/
def READING_BODY : Int := 2

/-- A value of `uint8_t *ptr`: null, `self->buffer + off`, or
`self->pdu->pdu_data + off`. -/
inductive ptr_t where
  | null
  | buffer (off : Nat)
  | pdu_data (off : Nat)
deriving DecidableEq, Repr

/-- Pointer arithmetic `ptr + n`. -/
def ptr_t.add (p : ptr_t) (n : Nat) : ptr_t :=
  match p with
  | ptr_t.null => ptr_t.null
  | ptr_t.buffer off => ptr_t.buffer (off + n)
  | ptr_t.pdu_data off => ptr_t.pdu_data (off + n)

/-- `struct zmtp_v3_encoder` -/
structure zmtp_v3_encoder_t where
  base : encoder_t
  state : Int
  buffer : Mathlib.Vector Nat 9
  pdu : Option pdu_t
  ptr : ptr_t
  bytes_left : Nat
deriving DecidableEq

/-- The bytes of memory that start at pointer `p`, up to the end of the
object `p` points into. -/
def zmtp_v3_encoder_t.mem (self : zmtp_v3_encoder_t) (p : ptr_t) : List Nat :=
  match p with
  | ptr_t.null => []
  | ptr_t.buffer off => self.buffer.toList.drop off
  | ptr_t.pdu_data off =>
    match self.pdu with
    | none => []
    | some pdu => pdu.pdu_data.drop off

/-- `static struct encoder_ops encoder_ops;` (line 30): a tentative
definition with no initialiser, so every member is a null pointer. -/
def encoder_ops : encoder_ops_t :=
  { encode := none, read := none, buffer := none,
    advance := none, status := none, destroy := none }

/-- `static struct encoder_ops ops = { ... };` (lines 205-212) -/
def ops : encoder_ops_t :=
  { encode := some encoder_fn.s_encode,
    read := some encoder_fn.s_read,
    buffer := some encoder_fn.s_buffer,
    advance := some encoder_fn.s_advance,
    status := some encoder_fn.s_status,
    destroy := some encoder_fn.s_destroy }

/-- `s_new` (lines 32-43), on the path where `malloc` succeeds: the compound
literal names `base` and `state`, every other member is zero. -/
def s_new : zmtp_v3_encoder_t :=
  { base := { ops := encoder_ops },
    state := WAITING_FOR_PDU,
    buffer := Mathlib.Vector.replicate 9 0,
    pdu := none,
    ptr := ptr_t.null,
    bytes_left := 0 }

/-- `put_uint64 (ptr, n)` (lines 214-225), `ptr` being `buffer + off`: eight
stores, the most significant byte first.  A store outside the nine bytes of
the buffer does not happen on any call in the file and is dropped here. -/
def put_uint64 (buffer : Mathlib.Vector Nat 9) (off : Nat) (n : Nat) :
    Mathlib.Vector Nat 9 :=
  let store (b : Mathlib.Vector Nat 9) (i : Nat) (v : Nat) : Mathlib.Vector Nat 9 :=
    if h : i < 9 then b.set ⟨i, h⟩ v else b
  let b := store buffer off ((n >>> 56) % 256)
  let b := store b (off + 1) ((n >>> 48) % 256)
  let b := store b (off + 2) ((n >>> 40) % 256)
  let b := store b (off + 3) ((n >>> 32) % 256)
  let b := store b (off + 4) ((n >>> 24) % 256)
  let b := store b (off + 5) ((n >>> 16) % 256)
  let b := store b (off + 6) ((n >>> 8) % 256)
  store b (off + 7) (n % 256)

/-- What a call of `s_encode` or `s_advance` leaves behind: the return value,
the encoder, `*status`, and the PDUs the call destroyed. -/
structure call_t where
  ret : Int
  self : zmtp_v3_encoder_t
  status : Nat
  destroyed : List pdu_t
deriving DecidableEq

/-- `s_encode` (lines 45-71).  `status` is the value of `*status` before the
call. -/
def s_encode (K : encoder_consts) (self : zmtp_v3_encoder_t) (pdu : pdu_t)
    (status : Nat) : Option call_t :=
  if self.state ≠ WAITING_FOR_PDU then
    some { ret := -1, self := self, status := status, destroyed := [] }
  else if self.pdu ≠ none then
    none
  else
    let self := { self with pdu := some pdu }
    let buffer := self.buffer.set 0 0
    let self :=
      if pdu.pdu_size > 255 then
        let buffer := buffer.set 0 (buffer.get 0 ||| 0x02)
        let buffer := put_uint64 buffer 1 (pdu.pdu_size % 2 ^ 64)
        { self with buffer := buffer, bytes_left := 9 }
      else
        let buffer := buffer.set 1 (pdu.pdu_size % 256)
        { self with buffer := buffer, bytes_left := 2 }
    some { ret := 0, self := self, status := K.ZKERNEL_ENCODER_READ_OK,
           destroyed := [] }

/-- What a call of `s_read` leaves behind: the return value, the encoder, the
sink, `*status`, and the PDUs the call destroyed. -/
structure read_t where
  ret : Int
  self : zmtp_v3_encoder_t
  iobuf : iobuf_t
  status : Nat
  destroyed : List pdu_t
deriving DecidableEq

/-- The `READING_HEADER` block of `s_read` (lines 85-97). -/
def s_read_header (self : zmtp_v3_encoder_t) (iobuf : iobuf_t) :
    Option (zmtp_v3_encoder_t × iobuf_t) :=
  if self.state = READING_HEADER then
    let w := iobuf_write iobuf (self.mem self.ptr) self.bytes_left
    let n := w.2
    let self := { self with ptr := self.ptr.add n, bytes_left := self.bytes_left - n }
    if self.bytes_left = 0 then
      match self.pdu with
      | none => none
      | some pdu =>
        some ({ self with ptr := ptr_t.pdu_data 0, bytes_left := pdu.pdu_size,
                          state := READING_BODY }, w.1)
    else
      some (self, w.1)
  else
    some (self, iobuf)

/-- The `READING_BODY` block of `s_read` (lines 99-109). -/
def s_read_body (self : zmtp_v3_encoder_t) (iobuf : iobuf_t) :
    zmtp_v3_encoder_t × iobuf_t × List pdu_t :=
  if self.state = READING_BODY then
    let w := iobuf_write iobuf (self.mem self.ptr) self.bytes_left
    let n := w.2
    let self := { self with ptr := self.ptr.add n, bytes_left := self.bytes_left - n }
    if self.bytes_left = 0 then
      let d := pdu_destroy self.pdu
      ({ self with pdu := d.1, state := WAITING_FOR_PDU }, w.1, d.2)
    else
      (self, w.1, [])
  else
    (self, iobuf, [])

/-- `s_read` (lines 73-118).  `status` is the value of `*status` before the
call. -/
def s_read (K : encoder_consts) (self : zmtp_v3_encoder_t) (iobuf : iobuf_t)
    (status : Nat) : Option read_t :=
  if self.state = WAITING_FOR_PDU then
    some { ret := -1, self := self, iobuf := iobuf, status := status, destroyed := [] }
  else if ¬ (self.state = READING_HEADER ∨ self.state = READING_BODY) then
    none
  else
    match s_read_header self iobuf with
    | none => none
    | some (self, iobuf) =>
      let b := s_read_body self iobuf
      let self := b.1
      let status := self.bytes_left &&& K.ZKERNEL_ENCODER_BUFFER_MASK
      let status :=
        if self.bytes_left ≠ 0 then status ||| K.ZKERNEL_ENCODER_READY
        else status ||| K.ZKERNEL_ENCODER_READ_OK
      some { ret := 0, self := self, iobuf := b.2.1, status := status,
             destroyed := b.2.2 }

/-- What a call of `s_buffer` leaves behind: the return value, the encoder,
`*buffer` and `*buffer_size`. -/
structure buffer_t where
  ret : Int
  self : zmtp_v3_encoder_t
  buffer : ptr_t
  buffer_size : Nat
deriving DecidableEq

/-- `s_buffer` (lines 120-136) -/
def s_buffer (self : zmtp_v3_encoder_t) : buffer_t :=
  if self.state = WAITING_FOR_PDU then
    { ret := 0, self := self, buffer := ptr_t.null, buffer_size := 0 }
  else
    { ret := 0, self := self, buffer := self.ptr, buffer_size := self.bytes_left }

/-- The `READING_HEADER` block of `s_advance` (lines 156-164). -/
def s_advance_header (self : zmtp_v3_encoder_t) : Option zmtp_v3_encoder_t :=
  if self.state = READING_HEADER then
    if self.bytes_left = 0 then
      match self.pdu with
      | none => none
      | some pdu =>
        some { self with ptr := ptr_t.pdu_data 0, bytes_left := pdu.pdu_size,
                         state := READING_BODY }
    else
      some self
  else
    some self

/-- `s_advance` (lines 138-176).  `status` is the value of `*status` before
the call. -/
def s_advance (K : encoder_consts) (self : zmtp_v3_encoder_t) (n : Nat)
    (status : Nat) : Option call_t :=
  if self.state = WAITING_FOR_PDU then
    some { ret := -1, self := self, status := status, destroyed := [] }
  else if ¬ (self.state = READING_HEADER ∨ self.state = READING_BODY) then
    none
  else if n > self.bytes_left then
    some { ret := -1, self := self, status := status, destroyed := [] }
  else
    let self := { self with ptr := self.ptr.add n, bytes_left := self.bytes_left - n }
    match s_advance_header self with
    | none => none
    | some self =>
      if self.bytes_left = 0 then
        let d := pdu_destroy self.pdu
        some { ret := 0, self := { self with pdu := d.1, state := WAITING_FOR_PDU },
               status := K.ZKERNEL_ENCODER_READY, destroyed := d.2 }
      else
        some { ret := 0, self := self,
               status := (self.bytes_left &&& K.ZKERNEL_ENCODER_BUFFER_MASK)
                          ||| K.ZKERNEL_ENCODER_READ_OK,
               destroyed := [] }

/-- `s_status` (lines 178-191) -/
def s_status (K : encoder_consts) (self : zmtp_v3_encoder_t) : Nat :=
  if self.state = WAITING_FOR_PDU then
    K.ZKERNEL_ENCODER_READY
  else
    (self.bytes_left &&& K.ZKERNEL_ENCODER_BUFFER_MASK) ||| K.ZKERNEL_ENCODER_READ_OK

/-! ## The driver and the cursor invariant -/

/-- The nine header bytes `s_encode` builds for a body of more than 255
bytes. -/
def large_header (s : Nat) : Mathlib.Vector Nat 9 :=
  ⟨[0x02, (s >>> 56) % 256, (s >>> 48) % 256, (s >>> 40) % 256, (s >>> 32) % 256,
    (s >>> 24) % 256, (s >>> 16) % 256, (s >>> 8) % 256, s % 256], rfl⟩

/-- The cursor invariant of an encoder with a PDU in flight: in
`READING_HEADER` the cursor is inside the scratch buffer with `bytes_left`
bytes of it ahead, in `READING_BODY` it is inside the body with exactly the
rest of the body ahead; the PDU holds as many bytes as its size says. -/
def in_flight (self : zmtp_v3_encoder_t) : Prop :=
  match self.pdu, self.ptr with
  | some pdu, ptr_t.buffer off =>
    self.state = READING_HEADER ∧ off + self.bytes_left ≤ 9 ∧
      pdu.pdu_data.length = pdu.pdu_size
  | some pdu, ptr_t.pdu_data off =>
    self.state = READING_BODY ∧ off + self.bytes_left = pdu.pdu_size ∧
      pdu.pdu_data.length = pdu.pdu_size
  | _, _ => False

instance (self : zmtp_v3_encoder_t) : Decidable (in_flight self) := by
  unfold in_flight
  split <;> infer_instance

/-- The bytes an encoder with a PDU in flight has not handed out yet: the
unconsumed bytes of the header followed by the body, or the unconsumed bytes
of the body. -/
def remaining (self : zmtp_v3_encoder_t) : List Nat :=
  match self.pdu, self.ptr with
  | some pdu, ptr_t.buffer off =>
    (self.buffer.toList.drop off).take self.bytes_left ++ pdu.pdu_data
  | some pdu, ptr_t.pdu_data off => pdu.pdu_data.drop off
  | _, _ => []

/-- One call of the driver: a `read` into an empty sink with the given
acceptance counts, or `buffer` followed by `advance (n)`. -/
inductive drain_op where
  | read (accept : List Nat)
  | advance (n : Nat)
deriving DecidableEq, Repr

/-- One successful driver call and the bytes it delivers.  A `read` delivers
what the sink accepted.  For `advance (n)` the driver takes `n` bytes, no more
than `s_buffer` reports, from the view `s_buffer` returns.  `none` when the
operation does not return 0. -/
def drain_step (K : encoder_consts) (self : zmtp_v3_encoder_t) (op : drain_op) :
    Option (zmtp_v3_encoder_t × List Nat) :=
  match op with
  | drain_op.read accept =>
    match s_read K self { data := [], accept := accept } 0 with
    | none => none
    | some r => if r.ret = 0 then some (r.self, r.iobuf.data) else none
  | drain_op.advance n =>
    let v := s_buffer self
    if n ≤ v.buffer_size then
      match s_advance K self n 0 with
      | none => none
      | some r => if r.ret = 0 then some (r.self, (self.mem v.buffer).take n) else none
    else
      none

/-- A sequence of successful driver calls and the bytes they deliver, in
order. -/
def drain (K : encoder_consts) (self : zmtp_v3_encoder_t) :
    List drain_op → Option (zmtp_v3_encoder_t × List Nat)
  | [] => some (self, [])
  | op :: rest =>
    match drain_step K self op with
    | none => none
    | some (self1, out1) =>
      match drain K self1 rest with
      | none => none
      | some (self2, out2) => some (self2, out1 ++ out2)

/-- A PDU of three bytes. -/
def pdu_abc : pdu_t := { pdu_data := [0x41, 0x42, 0x43], pdu_size := 3 }

/-- A PDU of 300 bytes. -/
def pdu_300 : pdu_t := { pdu_data := List.replicate 300 0x5a, pdu_size := 300 }

/-- Sample values for the status constants, for evaluating the operations. -/
def sample_consts : encoder_consts :=
  { ZKERNEL_ENCODER_READY := 0x100, ZKERNEL_ENCODER_READ_OK := 0x200,
    ZKERNEL_ENCODER_BUFFER_MASK := 0xff }

/-- A sample encoder in `READING_HEADER`: the header of `pdu_abc` queued and
unconsumed. -/
def sample_header : zmtp_v3_encoder_t :=
  { s_new with
    state := READING_HEADER,
    buffer := ⟨[0, 3, 0, 0, 0, 0, 0, 0, 0], rfl⟩,
    pdu := some pdu_abc,
    ptr := ptr_t.buffer 0,
    bytes_left := 2 }

/-- A sample encoder in `READING_BODY`: one byte of `pdu_abc` consumed. -/
def sample_body : zmtp_v3_encoder_t :=
  { sample_header with
    state := READING_BODY,
    ptr := ptr_t.pdu_data 1,
    bytes_left := 2 }

/-- The encoder `s_encode` leaves when it takes the three-byte PDU on a fresh
encoder: the PDU held, the header `00 03` built and `bytes_left` 2, with
`state` and `ptr` as `s_new` set them. -/
def after_encode_abc : zmtp_v3_encoder_t :=
  { s_new with
    pdu := some pdu_abc,
    buffer := ⟨[0, 3, 0, 0, 0, 0, 0, 0, 0], rfl⟩,
    bytes_left := 2 }

/-- An encoder at rest: idle, with no PDU held. -/
def at_rest (self : zmtp_v3_encoder_t) : Prop :=
  self.state = WAITING_FOR_PDU ∧ self.pdu = none

instance (self : zmtp_v3_encoder_t) : Decidable (at_rest self) := by
  unfold at_rest
  infer_instance

/-! ## Destruction -/

/-- What a call of `s_destroy` leaves behind: the caller's reference
`*base_p`, the PDUs the call destroyed, and the encoders it gave to `free`. -/
structure destroy_t where
  base_p : Option zmtp_v3_encoder_t
  destroyed : List pdu_t
  freed : List zmtp_v3_encoder_t
deriving DecidableEq

/-- `s_destroy` (lines 193-203).  `base_p` is the caller's reference:
`none` is a null `*base_p`, `some self` a reference to the encoder `self`. -/
def s_destroy (base_p : Option zmtp_v3_encoder_t) : destroy_t :=
  match base_p with
  | some self =>
    let d := if self.pdu ≠ none then pdu_destroy self.pdu else (self.pdu, [])
    { base_p := none, destroyed := d.2, freed := [{ self with pdu := d.1 }] }
  | none =>
    { base_p := none, destroyed := [], freed := [] }

/-- `encoder_destroy` (`encoder.c`, lines 27-35): on a reference that is not
null, a call through `self->ops.destroy`.  The only function of the file with
the type of that member is `s_destroy`; a call through a null function pointer
does not return, and is `none` like a failed assertion. -/
def encoder_destroy (self_p : Option zmtp_v3_encoder_t) : Option destroy_t :=
  match self_p with
  | some self =>
    match self.base.ops.destroy with
    | some encoder_fn.s_destroy => some (s_destroy self_p)
    | _ => none
  | none =>
    some { base_p := none, destroyed := [], freed := [] }

/-! ## The status word and the destroyed PDUs of a drain -/

/-- Modelled from the spec: the values of the status constants are in the
missing `encoder.h`.  The status word packs a flag and a numeric hint kept in
a reserved low-bit field: the ready flag is not zero, both flags lie outside
the field selected by the mask, and the ready flag shares no bit with the
data-ready flag. -/
def status_packing (K : encoder_consts) : Prop :=
  K.ZKERNEL_ENCODER_READY ≠ 0 ∧
  K.ZKERNEL_ENCODER_READY &&& K.ZKERNEL_ENCODER_BUFFER_MASK = 0 ∧
  K.ZKERNEL_ENCODER_READ_OK &&& K.ZKERNEL_ENCODER_BUFFER_MASK = 0 ∧
  K.ZKERNEL_ENCODER_READY &&& K.ZKERNEL_ENCODER_READ_OK = 0

instance (K : encoder_consts) : Decidable (status_packing K) := by
  unfold status_packing
  infer_instance

/-- The PDUs one driver call destroys. -/
def drain_step_destroyed (K : encoder_consts) (self : zmtp_v3_encoder_t)
    (op : drain_op) : List pdu_t :=
  match op with
  | drain_op.read accept =>
    match s_read K self { data := [], accept := accept } 0 with
    | none => []
    | some r => r.destroyed
  | drain_op.advance n =>
    match s_advance K self n 0 with
    | none => []
    | some r => r.destroyed

/-- The PDUs a sequence of driver calls destroys, in order. -/
def drain_destroyed (K : encoder_consts) (self : zmtp_v3_encoder_t) :
    List drain_op → List pdu_t
  | [] => []
  | op :: rest =>
    drain_step_destroyed K self op ++
      match drain_step K self op with
      | none => []
      | some (self1, _) => drain_destroyed K self1 rest

/-- A sample encoder in `READING_BODY` with 256 bytes of the 300-byte PDU
left. -/
def sample_wide : zmtp_v3_encoder_t :=
  { s_new with
    state := READING_BODY,
    buffer := large_header 300,
    pdu := some pdu_300,
    ptr := ptr_t.pdu_data 44,
    bytes_left := 256 }

/-- A PDU with an empty body. -/
def pdu_empty : pdu_t := { pdu_data := [], pdu_size := 0 }

/-- A sample encoder in `READING_HEADER`: the header of `pdu_empty` queued
and unconsumed. -/
def sample_empty : zmtp_v3_encoder_t :=
  { s_new with
    state := READING_HEADER,
    buffer := ⟨[0, 0, 0, 0, 0, 0, 0, 0, 0], rfl⟩,
    pdu := some pdu_empty,
    ptr := ptr_t.buffer 0,
    bytes_left := 2 }

/-- The sample encoder in `READING_HEADER` after a full drain: idle, the PDU
reference null, the cursor left behind the last body byte. -/
def sample_drained : zmtp_v3_encoder_t :=
  { sample_header with
    state := WAITING_FOR_PDU,
    pdu := none,
    ptr := ptr_t.pdu_data 3,
    bytes_left := 0 }

/-! ## Header construction -/

/-- A nine-byte buffer is a list of nine bytes. -/
theorem vector9_eq (v : Mathlib.Vector Nat 9) :
    ∃ a0 a1 a2 a3 a4 a5 a6 a7 a8 : Nat,
      v = ⟨[a0, a1, a2, a3, a4, a5, a6, a7, a8], rfl⟩ := by
  obtain ⟨l, hl⟩ := v
  match l, hl with
  | [a0, a1, a2, a3, a4, a5, a6, a7, a8], _ =>
    exact ⟨a0, a1, a2, a3, a4, a5, a6, a7, a8, rfl⟩

/-- The result of `s_encode` on an idle encoder for a body of at most 255
bytes, written out.  The state and the cursor are those of the encoder
before the call. -/
theorem s_encode_small_eq (K : encoder_consts) (self : zmtp_v3_encoder_t) (pdu : pdu_t)
    (status : Nat) (h1 : self.state = WAITING_FOR_PDU) (h2 : self.pdu = none)
    (h3 : pdu.pdu_size ≤ 255) :
    s_encode K self pdu status = some
      { ret := 0,
        self := { self with
          pdu := some pdu,
          buffer := (self.buffer.set 0 0).set 1 pdu.pdu_size,
          bytes_left := 2 },
        status := K.ZKERNEL_ENCODER_READ_OK,
        destroyed := [] } := by
  have h4 : ¬ pdu.pdu_size > 255 := by omega
  have h5 : pdu.pdu_size % 256 = pdu.pdu_size := by omega
  simp only [s_encode, h1, h2, h4, h5, ne_eq, not_true_eq_false, if_false]

/-- The result of `s_encode` on an idle encoder for a body of more than 255
bytes, written out. -/
theorem s_encode_large_eq (K : encoder_consts) (self : zmtp_v3_encoder_t) (pdu : pdu_t)
    (status : Nat) (h1 : self.state = WAITING_FOR_PDU) (h2 : self.pdu = none)
    (h3 : 255 < pdu.pdu_size) (h4 : pdu.pdu_size < 2 ^ 64) :
    s_encode K self pdu status = some
      { ret := 0,
        self := { self with
          pdu := some pdu,
          buffer := large_header pdu.pdu_size,
          bytes_left := 9 },
        status := K.ZKERNEL_ENCODER_READ_OK,
        destroyed := [] } := by
  obtain ⟨a0, a1, a2, a3, a4, a5, a6, a7, a8, hb⟩ := vector9_eq self.buffer
  have h5 : pdu.pdu_size % 2 ^ 64 = pdu.pdu_size := Nat.mod_eq_of_lt h4
  have h6 : pdu.pdu_size > 255 := h3
  simp only [s_encode, h1, h2, h6, h5, hb, ne_eq, not_true_eq_false, if_false, if_true]
  have h7 : ((Mathlib.Vector.set (⟨[a0, a1, a2, a3, a4, a5, a6, a7, a8], rfl⟩ :
      Mathlib.Vector Nat 9) 0 0).get 0 ||| 2) = 2 := by
    rw [Mathlib.Vector.get_set_same]; rfl
  rw [h7]
  rfl

/-- C1. For a body size of at most 255, `s_encode` on an idle encoder returns
0 and leaves a 2-byte header in the scratch buffer: byte 0 is exactly 0x00,
byte 1 is the size, and `bytes_left` is 2. -/
theorem s_encode_short_header (K : encoder_consts) (self : zmtp_v3_encoder_t)
    (pdu : pdu_t) (status : Nat) (h1 : self.state = WAITING_FOR_PDU)
    (h2 : self.pdu = none) (h3 : pdu.pdu_size ≤ 255) :
    ∃ r, s_encode K self pdu status = some r ∧ r.ret = 0 ∧
      r.self.buffer.get 0 = 0x00 ∧ r.self.buffer.get 1 = pdu.pdu_size ∧
      r.self.buffer.toList.take 2 = [0x00, pdu.pdu_size] ∧
      r.self.bytes_left = 2 := by
  obtain ⟨a0, a1, a2, a3, a4, a5, a6, a7, a8, hb⟩ := vector9_eq self.buffer
  refine ⟨_, s_encode_small_eq K self pdu status h1 h2 h3, rfl, ?_, ?_, ?_, rfl⟩ <;>
    simp only [hb] <;> rfl

/-- C1 at a fresh encoder and the three-byte PDU. -/
theorem s_encode_short_header_witness :
    (s_new.state = WAITING_FOR_PDU ∧ s_new.pdu = none ∧ pdu_abc.pdu_size ≤ 255) ∧
    ∃ r, s_encode sample_consts s_new pdu_abc 0 = some r ∧ r.ret = 0 ∧
      r.self.buffer.get 0 = 0x00 ∧ r.self.buffer.get 1 = pdu_abc.pdu_size ∧
      r.self.buffer.toList.take 2 = [0x00, pdu_abc.pdu_size] ∧
      r.self.bytes_left = 2 :=
  ⟨⟨rfl, rfl, by decide⟩,
   s_encode_short_header sample_consts s_new pdu_abc 0 rfl rfl (by decide)⟩

/-- C2. For a body size above 255 and below 2^64, `s_encode` on an idle
encoder returns 0 and leaves a 9-byte header in the scratch buffer: byte 0 is
exactly 0x02, byte 1+i is `(s >> (56 - 8*i)) mod 256` for i in 0..7, the eight
bytes read back big-endian give `s`, and `bytes_left` is 9. -/
theorem s_encode_long_header (K : encoder_consts) (self : zmtp_v3_encoder_t)
    (pdu : pdu_t) (status : Nat) (h1 : self.state = WAITING_FOR_PDU)
    (h2 : self.pdu = none) (h3 : 255 < pdu.pdu_size) (h4 : pdu.pdu_size < 2 ^ 64) :
    ∃ r, s_encode K self pdu status = some r ∧ r.ret = 0 ∧
      r.self.buffer.get 0 = 0x02 ∧
      (∀ i : Fin 8, r.self.buffer.get ⟨1 + i.val, by omega⟩
          = (pdu.pdu_size >>> (56 - 8 * i.val)) % 256) ∧
      (r.self.buffer.toList.drop 1).foldl (fun acc b => acc * 256 + b) 0
          = pdu.pdu_size ∧
      r.self.bytes_left = 9 := by
  refine ⟨_, s_encode_large_eq K self pdu status h1 h2 h3 h4, rfl, rfl, ?_, ?_, rfl⟩
  · intro i
    fin_cases i <;> rfl
  · show ([(pdu.pdu_size >>> 56) % 256, (pdu.pdu_size >>> 48) % 256,
      (pdu.pdu_size >>> 40) % 256, (pdu.pdu_size >>> 32) % 256,
      (pdu.pdu_size >>> 24) % 256, (pdu.pdu_size >>> 16) % 256,
      (pdu.pdu_size >>> 8) % 256, pdu.pdu_size % 256] : List Nat).foldl
        (fun acc b => acc * 256 + b) 0 = pdu.pdu_size
    simp only [List.foldl, Nat.shiftRight_eq_div_pow]
    omega

/-- C2 at a fresh encoder and the 300-byte PDU. -/
theorem s_encode_long_header_witness :
    (s_new.state = WAITING_FOR_PDU ∧ s_new.pdu = none ∧
      255 < pdu_300.pdu_size ∧ pdu_300.pdu_size < 2 ^ 64) ∧
    ∃ r, s_encode sample_consts s_new pdu_300 0 = some r ∧ r.ret = 0 ∧
      r.self.buffer.get 0 = 0x02 ∧
      (∀ i : Fin 8, r.self.buffer.get ⟨1 + i.val, by omega⟩
          = (pdu_300.pdu_size >>> (56 - 8 * i.val)) % 256) ∧
      (r.self.buffer.toList.drop 1).foldl (fun acc b => acc * 256 + b) 0
          = pdu_300.pdu_size ∧
      r.self.bytes_left = 9 :=
  ⟨⟨rfl, rfl, by decide, by decide⟩,
   s_encode_long_header sample_consts s_new pdu_300 0 rfl rfl (by decide) (by decide)⟩

/-! ## `s_encode` and the state it leaves -/

/-- The value of `s_encode` on a fresh encoder and the three-byte PDU. -/
theorem s_encode_new_abc (K : encoder_consts) (status : Nat) :
    s_encode K s_new pdu_abc status = some
      { ret := 0, self := after_encode_abc,
        status := K.ZKERNEL_ENCODER_READ_OK, destroyed := [] } := by
  rw [s_encode_small_eq K s_new pdu_abc status rfl rfl (by decide)]
  rfl

/-- C3, evaluated on the code: after `s_encode` has taken the three-byte PDU
`41 42 43` on a fresh encoder (return value 0), the state is still
`WAITING_FOR_PDU`, so every `s_read` returns -1 and writes nothing to its
sink, `s_buffer` yields the empty view `(NULL, 0)`, every `s_advance` returns
-1, and no driver call succeeds: none of the five bytes `00 03 41 42 43` is
streamed. -/
theorem encode_then_drain_streams_nothing (K : encoder_consts) :
    s_encode K s_new pdu_abc 0 = some
      { ret := 0, self := after_encode_abc,
        status := K.ZKERNEL_ENCODER_READ_OK, destroyed := [] } ∧
    after_encode_abc.state = WAITING_FOR_PDU ∧
    (∀ (iobuf : iobuf_t) (status : Nat),
      s_read K after_encode_abc iobuf status = some
        { ret := -1, self := after_encode_abc, iobuf := iobuf,
          status := status, destroyed := [] }) ∧
    s_buffer after_encode_abc =
      { ret := 0, self := after_encode_abc, buffer := ptr_t.null, buffer_size := 0 } ∧
    (∀ (n : Nat) (status : Nat),
      s_advance K after_encode_abc n status = some
        { ret := -1, self := after_encode_abc, status := status, destroyed := [] }) ∧
    (∀ (op : drain_op) (rest : List drain_op),
      drain K after_encode_abc (op :: rest) = none) := by
  refine ⟨s_encode_new_abc K 0, rfl, fun _ _ => rfl, rfl, fun _ _ => rfl, ?_⟩
  intro op rest
  cases op with
  | read accept => rfl
  | advance n =>
    cases n with
    | zero => rfl
    | succ m => rfl

/-- C4, evaluated on the code: `s_encode` of the three-byte PDU on a fresh
encoder returns 0, writes `ZKERNEL_ENCODER_READ_OK`, holds the PDU and sets
`bytes_left` to 2, but the state it leaves is `WAITING_FOR_PDU`, not
`READING_HEADER`, and `ptr` is the null pointer `s_new` left, not the start of
the scratch buffer. -/
theorem s_encode_keeps_state_and_ptr (K : encoder_consts) (status : Nat) :
    ∃ r, s_encode K s_new pdu_abc status = some r ∧ r.ret = 0 ∧
      r.status = K.ZKERNEL_ENCODER_READ_OK ∧
      r.self.pdu = some pdu_abc ∧ r.self.bytes_left = 2 ∧
      r.self.state = WAITING_FOR_PDU ∧ r.self.state ≠ READING_HEADER ∧
      r.self.ptr = ptr_t.null ∧ r.self.ptr ≠ ptr_t.buffer 0 :=
  ⟨_, s_encode_new_abc K status, rfl, rfl, rfl, rfl, rfl,
   (by decide : after_encode_abc.state ≠ READING_HEADER), rfl,
   (by decide : after_encode_abc.ptr ≠ ptr_t.buffer 0)⟩

/-- C6, evaluated on the code: after `s_encode` has taken the three-byte PDU
on a fresh encoder (return value 0), a second `s_encode` passes the state
check, because the state is still `WAITING_FOR_PDU`, and stops at
`assert (self->pdu == NULL)`: it does not return -1. -/
theorem second_encode_hits_assert (K : encoder_consts) (pdu : pdu_t)
    (status status2 : Nat) :
    ∃ r, s_encode K s_new pdu_abc status = some r ∧ r.ret = 0 ∧
      s_encode K r.self pdu status2 = none ∧
      s_encode K r.self pdu status2 ≠ some
        { ret := -1, self := r.self, status := status2, destroyed := [] } :=
  ⟨_, s_encode_new_abc K status, rfl, rfl, by
    rw [show s_encode K after_encode_abc pdu status2 = none from rfl]
    exact fun h => Option.noConfusion h⟩

/-- C7. In state `READING_HEADER` or `READING_BODY`, `s_encode` returns -1,
does not take the PDU, destroys nothing, and leaves every field of the encoder
and `*status` as they were. -/
theorem s_encode_rejected_in_flight (K : encoder_consts) (self : zmtp_v3_encoder_t)
    (pdu : pdu_t) (status : Nat)
    (h : self.state = READING_HEADER ∨ self.state = READING_BODY) :
    s_encode K self pdu status = some
      { ret := -1, self := self, status := status, destroyed := [] } := by
  have h1 : self.state ≠ WAITING_FOR_PDU := by
    rcases h with h | h <;> rw [h] <;> decide
  simp only [s_encode, h1, ne_eq, not_false_eq_true, if_true]

/-- C7 at the sample encoders: one in `READING_HEADER`, one in `READING_BODY`,
each offered the 300-byte PDU. -/
theorem s_encode_rejected_in_flight_witness :
    (sample_header.state = READING_HEADER ∧
      s_encode sample_consts sample_header pdu_300 7 = some
        { ret := -1, self := sample_header, status := 7, destroyed := [] }) ∧
    (sample_body.state = READING_BODY ∧
      s_encode sample_consts sample_body pdu_300 7 = some
        { ret := -1, self := sample_body, status := 7, destroyed := [] }) :=
  ⟨⟨rfl, s_encode_rejected_in_flight sample_consts sample_header pdu_300 7 (Or.inl rfl)⟩,
   ⟨rfl, s_encode_rejected_in_flight sample_consts sample_body pdu_300 7 (Or.inr rfl)⟩⟩

/-! ## `s_read`, `s_buffer` and `s_advance`: rejected calls and the view -/

/-- C8. On an idle encoder (state `WAITING_FOR_PDU`), `s_read` with any sink
and `s_advance` with any `n` return -1, write nothing to the sink, destroy
nothing, and leave every field of the encoder and `*status` as they were. -/
theorem idle_read_and_advance_rejected (K : encoder_consts) (self : zmtp_v3_encoder_t)
    (iobuf : iobuf_t) (n : Nat) (status : Nat) (h : self.state = WAITING_FOR_PDU) :
    s_read K self iobuf status = some
      { ret := -1, self := self, iobuf := iobuf, status := status, destroyed := [] } ∧
    s_advance K self n status = some
      { ret := -1, self := self, status := status, destroyed := [] } := by
  simp only [s_read, s_advance, h, if_true, and_self]

/-- C8 at a fresh encoder, with a sink that would take four bytes, for
`n = 0` and `n = 1`. -/
theorem idle_read_and_advance_rejected_witness :
    s_new.state = WAITING_FOR_PDU ∧
    (s_read sample_consts s_new { data := [], accept := [4] } 7 = some
      { ret := -1, self := s_new, iobuf := { data := [], accept := [4] },
        status := 7, destroyed := [] } ∧
     s_advance sample_consts s_new 0 7 = some
      { ret := -1, self := s_new, status := 7, destroyed := [] }) ∧
    s_advance sample_consts s_new 1 7 = some
      { ret := -1, self := s_new, status := 7, destroyed := [] } :=
  ⟨rfl,
   idle_read_and_advance_rejected sample_consts s_new { data := [], accept := [4] } 0 7 rfl,
   (idle_read_and_advance_rejected sample_consts s_new { data := [], accept := [] } 1 7 rfl).2⟩

/-- C9. In state `READING_HEADER` or `READING_BODY`, `s_advance (n)` with
`n > bytes_left` returns -1, destroys nothing, and leaves every field of the
encoder (state, ptr, bytes_left, pdu among them) and `*status` as they were;
with `n ≤ bytes_left` and a PDU held it returns 0. -/
theorem s_advance_over_consumption (K : encoder_consts) (self : zmtp_v3_encoder_t)
    (status : Nat) (h : self.state = READING_HEADER ∨ self.state = READING_BODY) :
    (∀ n, self.bytes_left < n →
      s_advance K self n status = some
        { ret := -1, self := self, status := status, destroyed := [] }) ∧
    (∀ n, n ≤ self.bytes_left → self.pdu ≠ none →
      ∃ r, s_advance K self n status = some r ∧ r.ret = 0) := by
  have h1 : self.state ≠ WAITING_FOR_PDU := by
    rcases h with h | h <;> rw [h] <;> decide
  constructor
  · intro n hn
    have hn2 : n > self.bytes_left := hn
    simp only [s_advance, h1, h, hn2, not_true_eq_false, if_false, if_true]
  · intro n hn hp
    have hn2 : ¬ n > self.bytes_left := by omega
    obtain ⟨pdu, hpdu⟩ := Option.ne_none_iff_exists'.mp hp
    simp only [s_advance, s_advance_header, h1, h, hn2, hpdu, not_true_eq_false,
      if_false]
    by_cases hs : self.state = READING_HEADER <;>
      by_cases hb : self.bytes_left - n = 0 <;>
      by_cases hz : pdu.pdu_size = 0 <;>
      simp [hs, hb, hz]

/-- C9 at the sample encoder in `READING_HEADER` with two bytes left:
`advance (3)` is rejected and changes nothing, `advance (2)` returns 0. -/
theorem s_advance_over_consumption_witness :
    sample_header.state = READING_HEADER ∧ sample_header.bytes_left = 2 ∧
    s_advance sample_consts sample_header 3 7 = some
      { ret := -1, self := sample_header, status := 7, destroyed := [] } ∧
    ∃ r, s_advance sample_consts sample_header 2 7 = some r ∧ r.ret = 0 :=
  ⟨rfl, rfl,
   (s_advance_over_consumption sample_consts sample_header 7 (Or.inl rfl)).1 3 (by decide),
   (s_advance_over_consumption sample_consts sample_header 7 (Or.inl rfl)).2 2
     (by decide) (by decide)⟩

/-! ## Draining -/

/-- The first `n` elements of a list are its first `k ≤ n` elements and the
next `n - k`. -/
theorem take_split (l : List Nat) (k n : Nat) (h : k ≤ n) :
    l.take n = l.take k ++ (l.drop k).take (n - k) := by
  have h2 : n = k + (n - k) := by omega
  conv_lhs => rw [h2]
  exact List.take_add l k (n - k)

/-- A write accepts some count `k ≤ n` and appends the first `k` bytes offered. -/
theorem iobuf_write_eq (iobuf : iobuf_t) (src : List Nat) (n : Nat) :
    ∃ k, k ≤ n ∧ iobuf_write iobuf src n =
      ({ data := iobuf.data ++ src.take k, accept := iobuf.accept.tail }, k) :=
  ⟨min n (iobuf.accept.headD 0), Nat.min_le_left _ _, rfl⟩

/-- One `s_read` on an encoder with a PDU in flight returns 0; the bytes the
sink gained, followed by what the encoder still has to hand out, are what it
had to hand out before; the encoder is again in flight, or at rest. -/
theorem s_read_progress (K : encoder_consts) (self : zmtp_v3_encoder_t)
    (iobuf : iobuf_t) (status : Nat) (h : in_flight self) :
    ∃ r d, s_read K self iobuf status = some r ∧ r.ret = 0 ∧
      r.iobuf.data = iobuf.data ++ d ∧ remaining self = d ++ remaining r.self ∧
      (in_flight r.self ∨ at_rest r.self) := by
  obtain ⟨base, state, buffer, pdu, ptr, bl⟩ := self
  have e1 : READING_HEADER ≠ WAITING_FOR_PDU := by decide
  have e2 : READING_BODY ≠ WAITING_FOR_PDU := by decide
  have e3 : READING_BODY ≠ READING_HEADER := by decide
  cases pdu with
  | none => simp [in_flight] at h
  | some pdu =>
  obtain ⟨data, size⟩ := pdu
  cases ptr with
  | null => simp [in_flight] at h
  | buffer off =>
    simp only [in_flight] at h
    obtain ⟨hs, hoff, hlen⟩ := h
    subst hs
    subst hlen
    obtain ⟨k, hk, hw⟩ := iobuf_write_eq iobuf (buffer.toList.drop off) bl
    simp only [s_read, s_read_header, e1, if_false, true_or, not_true_eq_false, if_true,
      zmtp_v3_encoder_t.mem, hw, ptr_t.add]
    by_cases hz : bl - k = 0
    · have hkb : k = bl := by omega
      subst hkb
      obtain ⟨k2, hk2, hw2⟩ := iobuf_write_eq
        { data := iobuf.data ++ (buffer.toList.drop off).take k, accept := iobuf.accept.tail }
        (data.drop 0) data.length
      simp only [hz, if_true, s_read_body, zmtp_v3_encoder_t.mem, hw2, ptr_t.add, pdu_destroy]
      by_cases hz2 : data.length - k2 = 0
      · have hk2b : k2 = data.length := by omega
        subst hk2b
        simp only [hz2, if_true]
        refine ⟨_, (buffer.toList.drop off).take k ++ data, rfl, rfl, ?_, ?_, Or.inr ⟨rfl, rfl⟩⟩
        · simp
        · simp [remaining]
      · simp only [hz2, if_false]
        refine ⟨_, (buffer.toList.drop off).take k ++ data.take k2, rfl, rfl, ?_, ?_, Or.inl ?_⟩
        · simp
        · simp [remaining]
        · simp only [in_flight]
          exact ⟨trivial, by omega, trivial⟩
    · simp only [hz, if_false, s_read_body, e3.symm]
      refine ⟨_, (buffer.toList.drop off).take k, rfl, rfl, rfl, ?_, Or.inl ?_⟩
      · simp only [remaining, ← List.append_assoc]
        congr 1
        rw [take_split _ k bl hk, List.drop_drop]
      · simp only [in_flight]
        exact ⟨trivial, by omega, trivial⟩
  | pdu_data off =>
    simp only [in_flight] at h
    obtain ⟨hs, hoff, hlen⟩ := h
    subst hs
    subst hlen
    obtain ⟨k, hk, hw⟩ := iobuf_write_eq iobuf (data.drop off) bl
    simp only [s_read, s_read_header, s_read_body, e2, e3, if_false, or_true,
      not_true_eq_false, if_true, zmtp_v3_encoder_t.mem, hw, ptr_t.add, pdu_destroy]
    by_cases hz : bl - k = 0
    · have hkb : k = bl := by omega
      subst hkb
      simp only [hz, if_true]
      refine ⟨_, (data.drop off).take k, rfl, rfl, rfl, ?_, Or.inr ⟨rfl, rfl⟩⟩
      simp only [remaining, List.append_nil]
      rw [List.take_of_length_le]
      simp only [List.length_drop]
      omega
    · simp only [hz, if_false]
      refine ⟨_, (data.drop off).take k, rfl, rfl, rfl, ?_, Or.inl ?_⟩
      · simp only [remaining]
        rw [← List.drop_drop, List.take_append_drop]
      · simp only [in_flight]
        exact ⟨trivial, by omega, trivial⟩
/-- One `s_advance (n)` with `n ≤ bytes_left` on an encoder with a PDU in flight
returns 0; the first `n` bytes behind the cursor, followed by what the encoder
still has to hand out, are what it had to hand out before; the encoder is
again in flight, or at rest. -/
theorem s_advance_progress (K : encoder_consts) (self : zmtp_v3_encoder_t)
    (n : Nat) (status : Nat) (h : in_flight self) (hn : n ≤ self.bytes_left) :
    ∃ r, s_advance K self n status = some r ∧ r.ret = 0 ∧
      remaining self = (self.mem self.ptr).take n ++ remaining r.self ∧
      (in_flight r.self ∨ at_rest r.self) := by
  obtain ⟨base, state, buffer, pdu, ptr, bl⟩ := self
  have e1 : READING_HEADER ≠ WAITING_FOR_PDU := by decide
  have e2 : READING_BODY ≠ WAITING_FOR_PDU := by decide
  have e3 : READING_BODY ≠ READING_HEADER := by decide
  simp only at hn
  have hn2 : ¬ n > bl := by omega
  cases pdu with
  | none => simp [in_flight] at h
  | some pdu =>
  obtain ⟨data, size⟩ := pdu
  cases ptr with
  | null => simp [in_flight] at h
  | buffer off =>
    simp only [in_flight] at h
    obtain ⟨hs, hoff, hlen⟩ := h
    subst hs
    subst hlen
    simp only [s_advance, s_advance_header, e1, if_false, true_or, not_true_eq_false, if_true,
      zmtp_v3_encoder_t.mem, ptr_t.add, hn2, pdu_destroy]
    by_cases hz : bl - n = 0
    · have hkb : n = bl := by omega
      subst hkb
      simp only [hz, if_true]
      by_cases hz2 : data.length = 0
      · simp only [hz2, if_true]
        refine ⟨_, rfl, rfl, ?_, Or.inr ⟨rfl, rfl⟩⟩
        simp only [remaining, List.append_nil, List.append_right_eq_self]
        exact List.length_eq_zero.mp hz2
      · simp only [hz2, if_false]
        refine ⟨_, rfl, rfl, ?_, Or.inl ?_⟩
        · simp [remaining]
        · simp only [in_flight]
          exact ⟨trivial, by omega, trivial⟩
    · simp only [hz, if_false]
      refine ⟨_, rfl, rfl, ?_, Or.inl ?_⟩
      · simp only [remaining, ← List.append_assoc]
        congr 1
        rw [take_split _ n bl hn, List.drop_drop]
      · simp only [in_flight]
        exact ⟨trivial, by omega, trivial⟩
  | pdu_data off =>
    simp only [in_flight] at h
    obtain ⟨hs, hoff, hlen⟩ := h
    subst hs
    subst hlen
    simp only [s_advance, s_advance_header, e2, e3, if_false, or_true,
      not_true_eq_false, if_true, zmtp_v3_encoder_t.mem, ptr_t.add, hn2, pdu_destroy]
    by_cases hz : bl - n = 0
    · have hkb : n = bl := by omega
      subst hkb
      simp only [hz, if_true]
      refine ⟨_, rfl, rfl, ?_, Or.inr ⟨rfl, rfl⟩⟩
      simp only [remaining, List.append_nil]
      rw [List.take_of_length_le]
      simp only [List.length_drop]
      omega
    · simp only [hz, if_false]
      refine ⟨_, rfl, rfl, ?_, Or.inl ?_⟩
      · simp only [remaining]
        rw [← List.drop_drop, List.take_append_drop]
      · simp only [in_flight]
        exact ⟨trivial, by omega, trivial⟩

/-- An encoder with a PDU in flight is not idle. -/
theorem in_flight_state (self : zmtp_v3_encoder_t) (h : in_flight self) :
    self.state ≠ WAITING_FOR_PDU := by
  unfold in_flight at h
  split at h
  · rw [h.1]; decide
  · rw [h.1]; decide
  · exact h.elim

/-- One successful driver call delivers a prefix of what the encoder had to
hand out and leaves the rest to hand out. -/
theorem drain_step_progress (K : encoder_consts) (self self1 : zmtp_v3_encoder_t)
    (op : drain_op) (out : List Nat) (h : in_flight self)
    (hd : drain_step K self op = some (self1, out)) :
    remaining self = out ++ remaining self1 ∧ (in_flight self1 ∨ at_rest self1) := by
  cases op with
  | read accept =>
    obtain ⟨r, d, hr, hret, hdata, hrem, hinv⟩ :=
      s_read_progress K self { data := [], accept := accept } 0 h
    simp only [drain_step, hr, hret, if_true, Option.some.injEq, Prod.mk.injEq] at hd
    obtain ⟨h1, h2⟩ := hd
    subst h1
    rw [hdata, List.nil_append] at h2
    subst h2
    exact ⟨hrem, hinv⟩
  | advance n =>
    have hs := in_flight_state self h
    simp only [drain_step, s_buffer, hs, if_false] at hd
    by_cases hn : n ≤ self.bytes_left
    · obtain ⟨r, hr, hret, hrem, hinv⟩ := s_advance_progress K self n 0 h hn
      simp only [hn, if_true, hr, hret, Option.some.injEq, Prod.mk.injEq] at hd
      obtain ⟨h1, h2⟩ := hd
      subst h1
      subst h2
      exact ⟨hrem, hinv⟩
    · simp only [hn, if_false] at hd
      exact Option.noConfusion hd

/-- No driver call succeeds on an idle encoder. -/
theorem drain_step_at_rest (K : encoder_consts) (self : zmtp_v3_encoder_t)
    (op : drain_op) (h : self.state = WAITING_FOR_PDU) :
    drain_step K self op = none := by
  cases op with
  | read accept => simp [drain_step, s_read, h]
  | advance n => simp [drain_step, s_advance, h]

/-- A sequence of successful driver calls delivers a prefix of what the
encoder had to hand out and leaves the rest to hand out. -/
theorem drain_progress (K : encoder_consts) (ops : List drain_op) :
    ∀ (self self1 : zmtp_v3_encoder_t) (out : List Nat),
      (in_flight self ∨ at_rest self) → drain K self ops = some (self1, out) →
      remaining self = out ++ remaining self1 ∧ (in_flight self1 ∨ at_rest self1) := by
  induction ops with
  | nil =>
    intro self self1 out hinv hd
    simp only [drain, Option.some.injEq, Prod.mk.injEq] at hd
    obtain ⟨h1, h2⟩ := hd
    subst h1
    subst h2
    exact ⟨rfl, hinv⟩
  | cons op rest ih =>
    intro self self1 out hinv hd
    rcases hinv with hf | hr
    · simp only [drain] at hd
      cases hstep : drain_step K self op with
      | none => simp [hstep] at hd
      | some p =>
        obtain ⟨self2, out2⟩ := p
        obtain ⟨hrem, hinv2⟩ := drain_step_progress K self self2 op out2 hf hstep
        simp only [hstep] at hd
        cases hrest : drain K self2 rest with
        | none => simp [hrest] at hd
        | some q =>
          obtain ⟨self3, out3⟩ := q
          simp only [hrest, Option.some.injEq, Prod.mk.injEq] at hd
          obtain ⟨h1, h2⟩ := hd
          subst h1
          subst h2
          obtain ⟨hrem3, hinv3⟩ := ih self2 self3 out3 hinv2 hrest
          exact ⟨by rw [hrem, hrem3, List.append_assoc], hinv3⟩
    · simp [drain, drain_step_at_rest K self op hr.1] at hd

/-- One `s_read` into an empty sink that accepts as many bytes as the header
segment and the body segment offer delivers everything the encoder had to hand
out and leaves it at rest. -/
theorem s_read_all (K : encoder_consts) (self : zmtp_v3_encoder_t)
    (a b : Nat) (rest : List Nat) (status : Nat) (h : in_flight self)
    (ha : self.bytes_left ≤ a) (hb : ∀ p, self.pdu = some p → p.pdu_size ≤ b) :
    ∃ r, s_read K self { data := [], accept := a :: b :: rest } status = some r ∧
      r.ret = 0 ∧ r.iobuf.data = remaining self ∧ at_rest r.self := by
  obtain ⟨base, state, buffer, pdu, ptr, bl⟩ := self
  have e1 : READING_HEADER ≠ WAITING_FOR_PDU := by decide
  have e2 : READING_BODY ≠ WAITING_FOR_PDU := by decide
  have e3 : READING_BODY ≠ READING_HEADER := by decide
  simp only at ha
  cases pdu with
  | none => simp [in_flight] at h
  | some pdu =>
  have hb2 : pdu.pdu_size ≤ b := hb pdu rfl
  obtain ⟨data, size⟩ := pdu
  simp only at hb2
  cases ptr with
  | null => simp [in_flight] at h
  | buffer off =>
    simp only [in_flight] at h
    obtain ⟨hs, hoff, hlen⟩ := h
    subst hs
    subst hlen
    have m1 : min bl a = bl := Nat.min_eq_left ha
    have m2 : min data.length b = data.length := Nat.min_eq_left hb2
    simp only [s_read, s_read_header, s_read_body, e1, if_false, true_or, not_true_eq_false,
      if_true, zmtp_v3_encoder_t.mem, ptr_t.add, iobuf_write, List.headD, List.tail, m1, m2,
      Nat.sub_self, pdu_destroy]
    refine ⟨_, rfl, rfl, ?_, ⟨rfl, rfl⟩⟩
    simp [remaining]
  | pdu_data off =>
    simp only [in_flight] at h
    obtain ⟨hs, hoff, hlen⟩ := h
    subst hs
    subst hlen
    have m1 : min bl a = bl := Nat.min_eq_left ha
    simp only [s_read, s_read_header, s_read_body, e2, e3, if_false, or_true,
      not_true_eq_false, if_true, zmtp_v3_encoder_t.mem, ptr_t.add, iobuf_write, List.headD,
      List.tail, m1, Nat.sub_self, pdu_destroy]
    refine ⟨_, rfl, rfl, ?_, ⟨rfl, rfl⟩⟩
    simp only [remaining, List.nil_append]
    rw [List.take_of_length_le]
    simp only [List.length_drop]
    omega


/-- C5. For an encoder with a PDU in flight (in `READING_HEADER` with the
cursor on the unconsumed part of the header, or in `READING_BODY` with the
cursor on the unconsumed part of the body): a single `read` into a sink that
accepts everything delivers the unconsumed header bytes followed by the body
and leaves the encoder idle; and every sequence of successful `read` calls
(any acceptance counts) and `advance (n)` calls (each `n` at most the length
`buffer` reports) that ends with the encoder idle delivers exactly the same
bytes. -/
theorem drain_chunking_independent (K : encoder_consts) (self : zmtp_v3_encoder_t)
    (h : in_flight self) :
    (∀ (a b : Nat) (rest : List Nat), self.bytes_left ≤ a →
      (∀ p, self.pdu = some p → p.pdu_size ≤ b) →
      ∃ self1, drain K self [drain_op.read (a :: b :: rest)] = some (self1, remaining self) ∧
        self1.state = WAITING_FOR_PDU) ∧
    (∀ (ops : List drain_op) (self1 : zmtp_v3_encoder_t) (out : List Nat),
      drain K self ops = some (self1, out) → self1.state = WAITING_FOR_PDU →
      out = remaining self) := by
  constructor
  · intro a b rest ha hb
    obtain ⟨r, hr, hret, hdata, hrest⟩ := s_read_all K self a b rest 0 h ha hb
    refine ⟨r.self, ?_, hrest.1⟩
    simp only [drain, drain_step, hr, hret, if_true, hdata, List.append_nil]
  · intro ops self1 out hd hidle
    obtain ⟨hrem, hinv⟩ := drain_progress K ops self self1 out (Or.inl h) hd
    rcases hinv with hf | hr
    · exact absurd hidle (in_flight_state self1 hf)
    · have : remaining self1 = [] := by
        simp only [remaining, hr.2]
      rw [hrem, this, List.append_nil]

/-- C5 at the sample encoder in `READING_HEADER`: a drain in chunks of one
byte, two bytes, one byte and one byte, by `read` and by `advance`, delivers
`00 03 41 42 43`. -/
theorem drain_chunking_independent_witness :
    in_flight sample_header ∧
    (∃ self1, drain sample_consts sample_header
        [drain_op.read [1], drain_op.read [1, 1], drain_op.advance 1, drain_op.read [5]]
        = some (self1, [0x00, 0x03, 0x41, 0x42, 0x43]) ∧ self1.state = WAITING_FOR_PDU) ∧
    [0x00, 0x03, 0x41, 0x42, 0x43] = remaining sample_header :=
  ⟨by decide, ⟨_, rfl, rfl⟩,
   (drain_chunking_independent sample_consts sample_header (by decide)).2
     [drain_op.read [1], drain_op.read [1, 1], drain_op.advance 1, drain_op.read [5]]
     _ _ rfl rfl⟩


/-- C10. `s_buffer` returns 0 in every state and changes no field of the
encoder; on an idle encoder it yields `(NULL, 0)`, otherwise `(ptr,
bytes_left)`; a second call returns the same view; and with a PDU in flight
the view holds `bytes_left` bytes, the first `bytes_left` bytes the encoder
has not handed out yet. -/
theorem s_buffer_pure_view (self : zmtp_v3_encoder_t) :
    (s_buffer self).ret = 0 ∧ (s_buffer self).self = self ∧
    (self.state = WAITING_FOR_PDU →
      (s_buffer self).buffer = ptr_t.null ∧ (s_buffer self).buffer_size = 0) ∧
    (self.state ≠ WAITING_FOR_PDU →
      (s_buffer self).buffer = self.ptr ∧ (s_buffer self).buffer_size = self.bytes_left) ∧
    s_buffer (s_buffer self).self = s_buffer self ∧
    (in_flight self →
      ((self.mem (s_buffer self).buffer).take (s_buffer self).buffer_size).length
        = self.bytes_left ∧
      (self.mem (s_buffer self).buffer).take (s_buffer self).buffer_size
        = (remaining self).take self.bytes_left) := by
  have hself : (s_buffer self).self = self := by
    unfold s_buffer; split <;> rfl
  refine ⟨by unfold s_buffer; split <;> rfl, hself, ?_, ?_, by rw [hself], ?_⟩
  · intro h
    simp only [s_buffer, h, if_true, and_self]
  · intro h
    simp only [s_buffer, h, if_false, and_self]
  · intro h
    have hs := in_flight_state self h
    simp only [s_buffer, hs, if_false]
    obtain ⟨base, state, buffer, pdu, ptr, bl⟩ := self
    cases pdu with
    | none => simp [in_flight] at h
    | some pdu =>
    cases ptr with
    | null => simp [in_flight] at h
    | buffer off =>
      simp only [in_flight] at h
      obtain ⟨-, hoff, -⟩ := h
      have hl : ((buffer.toList.drop off).take bl).length = bl := by
        simp only [List.length_take, List.length_drop, Mathlib.Vector.toList_length]
        omega
      refine ⟨hl, ?_⟩
      simp only [zmtp_v3_encoder_t.mem, remaining]
      rw [List.take_append_of_le_length (by omega), List.take_take, Nat.min_self]
    | pdu_data off =>
      simp only [in_flight] at h
      obtain ⟨-, hoff, hlen⟩ := h
      simp only [zmtp_v3_encoder_t.mem, remaining, List.length_take, List.length_drop, and_true]
      omega

/-! ## The status word -/

/-- The hint field of a masked count with a flag outside the mask is the
masked count. -/
theorem hint_of_status (x m f : Nat) (h : f &&& m = 0) :
    ((x &&& m) ||| f) &&& m = x &&& m := by
  rw [Nat.and_comm, Nat.and_or_distrib_left, Nat.and_comm m f, h, Nat.or_zero,
    Nat.and_comm m, Nat.and_assoc, Nat.and_self]

/-- A flag that lies outside the mask and outside the data-ready flag is clear
in a masked count with the data-ready flag. -/
theorem flag_clear_of_status (x m r f : Nat) (hm : f &&& m = 0) (hr : f &&& r = 0) :
    ((x &&& m) ||| r) &&& f = 0 := by
  rw [Nat.and_comm, Nat.and_or_distrib_left, hr, Nat.or_zero, Nat.and_comm x m,
    ← Nat.and_assoc, hm, Nat.zero_and]

/-- C11. `s_status` is a total function of the encoder that returns a status
word and nothing else, so it has no error path and stores nothing in the
encoder.  It returns `ZKERNEL_ENCODER_READY` when the encoder is idle and
`(bytes_left & ZKERNEL_ENCODER_BUFFER_MASK) | ZKERNEL_ENCODER_READ_OK` when a
PDU is in flight.  With the flags packed outside the hint field, the hint of
an idle encoder is zero and the ready flag is set in the status word if and
only if the state is `WAITING_FOR_PDU`. -/
theorem s_status_query (K : encoder_consts) (self : zmtp_v3_encoder_t) :
    (self.state = WAITING_FOR_PDU → s_status K self = K.ZKERNEL_ENCODER_READY) ∧
    (self.state ≠ WAITING_FOR_PDU →
      s_status K self =
        (self.bytes_left &&& K.ZKERNEL_ENCODER_BUFFER_MASK) ||| K.ZKERNEL_ENCODER_READ_OK) ∧
    (status_packing K →
      (self.state = WAITING_FOR_PDU →
        s_status K self &&& K.ZKERNEL_ENCODER_BUFFER_MASK = 0) ∧
      (s_status K self &&& K.ZKERNEL_ENCODER_READY ≠ 0 ↔
        self.state = WAITING_FOR_PDU)) := by
  refine ⟨?_, ?_, ?_⟩
  · intro h
    simp only [s_status, h, if_true]
  · intro h
    simp only [s_status, h, if_false]
  · rintro ⟨h0, hm, -, hr⟩
    by_cases h : self.state = WAITING_FOR_PDU
    · simp only [s_status, h, if_true, Nat.and_self, hm, true_implies, iff_true]
      exact ⟨trivial, h0⟩
    · simp only [s_status, h, if_false, false_implies, iff_false, not_not, true_and]
      exact flag_clear_of_status _ _ _ _ hm hr

/-- C11 at the sample constants: the status of a fresh encoder is the ready
flag, the status of the sample encoder in `READING_HEADER` is the count 2
with the data-ready flag, and the ready flag tells the two apart. -/
theorem s_status_query_witness :
    status_packing sample_consts ∧
    s_status sample_consts s_new = 0x100 ∧
    s_status sample_consts sample_header = 0x202 ∧
    (s_status sample_consts sample_header &&& sample_consts.ZKERNEL_ENCODER_READY ≠ 0 ↔
      sample_header.state = WAITING_FOR_PDU) :=
  ⟨by decide, by decide, by decide,
   ((s_status_query sample_consts sample_header).2.2 (by decide)).2⟩

/-- C13, evaluated on the code.  On the sample encoder in `READING_HEADER`
(header `00 03`, body of three bytes): a `read` that takes all five bytes
returns 0 and leaves the encoder idle, yet the status it writes carries
`ZKERNEL_ENCODER_READ_OK`, where `s_status` then reports
`ZKERNEL_ENCODER_READY`; a `read` that takes one byte leaves one header byte
and writes the hint with `ZKERNEL_ENCODER_READY`, where `s_status` reports
the hint with `ZKERNEL_ENCODER_READ_OK`.  The two differ whenever the two
flags are different numbers. -/
theorem s_read_status_flags_swapped (K : encoder_consts) (status : Nat) :
    (∃ r, s_read K sample_header { data := [], accept := [2, 3] } status = some r ∧
      r.ret = 0 ∧ r.self.state = WAITING_FOR_PDU ∧ r.self.bytes_left = 0 ∧
      r.status = K.ZKERNEL_ENCODER_READ_OK ∧
      s_status K r.self = K.ZKERNEL_ENCODER_READY ∧
      (K.ZKERNEL_ENCODER_READY ≠ K.ZKERNEL_ENCODER_READ_OK →
        r.status ≠ s_status K r.self)) ∧
    (∃ r, s_read K sample_header { data := [], accept := [1] } status = some r ∧
      r.ret = 0 ∧ r.self.state = READING_HEADER ∧ r.self.bytes_left = 1 ∧
      r.status = (1 &&& K.ZKERNEL_ENCODER_BUFFER_MASK) ||| K.ZKERNEL_ENCODER_READY ∧
      s_status K r.self =
        (1 &&& K.ZKERNEL_ENCODER_BUFFER_MASK) ||| K.ZKERNEL_ENCODER_READ_OK) := by
  constructor
  · refine ⟨_, rfl, rfl, rfl, rfl, ?_, rfl, ?_⟩
    · show (0 &&& K.ZKERNEL_ENCODER_BUFFER_MASK) ||| K.ZKERNEL_ENCODER_READ_OK = _
      rw [Nat.zero_and, Nat.zero_or]
    · intro h
      show (0 &&& K.ZKERNEL_ENCODER_BUFFER_MASK) ||| K.ZKERNEL_ENCODER_READ_OK
        ≠ K.ZKERNEL_ENCODER_READY
      rw [Nat.zero_and, Nat.zero_or]
      exact fun e => h e.symm
  · exact ⟨_, rfl, rfl, rfl, rfl, rfl, rfl⟩

/-! ## What a successful call leaves behind -/

/-- The PDUs `pdu_destroy` destroys are the PDU the reference held, and the
reference is null afterwards. -/
theorem pdu_destroy_eq (pdu_p : Option pdu_t) :
    pdu_destroy pdu_p = (none, pdu_p.toList) := by
  cases pdu_p <;> rfl

/-- What the `READING_BODY` block of `s_read` leaves behind: in the body state
either an idle encoder with nothing left and the PDU destroyed, or the body
state with bytes left; in another state nothing changes. -/
theorem s_read_body_shape (s1 : zmtp_v3_encoder_t) (io1 : iobuf_t) :
    (s1.state = READING_BODY →
      ((s_read_body s1 io1).1.state = WAITING_FOR_PDU ∧
        (s_read_body s1 io1).1.bytes_left = 0 ∧ (s_read_body s1 io1).1.pdu = none ∧
        (s_read_body s1 io1).2.2 = s1.pdu.toList) ∨
      ((s_read_body s1 io1).1.state = READING_BODY ∧
        (s_read_body s1 io1).1.bytes_left ≠ 0 ∧ (s_read_body s1 io1).1.pdu = s1.pdu ∧
        (s_read_body s1 io1).2.2 = [])) ∧
    (s1.state ≠ READING_BODY → s_read_body s1 io1 = (s1, io1, [])) := by
  constructor
  · intro g1
    by_cases g5 : s1.bytes_left - (iobuf_write io1 (s1.mem s1.ptr) s1.bytes_left).2 = 0
    · left
      simp only [s_read_body, g1, if_true, g5, pdu_destroy_eq, and_self]
    · right
      simp only [s_read_body, g1, if_true, g5, if_false, ne_eq, not_false_eq_true, and_self]
  · intro g1
    simp only [s_read_body, g1, if_false]

/-- What the `READING_HEADER` block of `s_read` leaves behind: the header
state with bytes left, or the body state; the PDU is the one held before. -/
theorem s_read_header_shape (self : zmtp_v3_encoder_t) (iobuf : iobuf_t)
    (s1 : zmtp_v3_encoder_t) (io1 : iobuf_t)
    (hh : s_read_header self iobuf = some (s1, io1))
    (h2 : self.state = READING_HEADER ∨ self.state = READING_BODY) :
    (s1.state = READING_HEADER ∧ s1.bytes_left ≠ 0 ∧ s1.pdu = self.pdu) ∨
    (s1.state = READING_BODY ∧ s1.pdu = self.pdu) := by
  by_cases g1 : self.state = READING_HEADER
  · simp only [s_read_header, g1, if_true] at hh
    by_cases g2 : self.bytes_left - (iobuf_write iobuf (self.mem self.ptr) self.bytes_left).2 = 0
    · simp only [g2, if_true] at hh
      cases hp : self.pdu with
      | none => simp [hp] at hh
      | some pdu =>
        simp only [hp, Option.some.injEq, Prod.mk.injEq] at hh
        obtain ⟨hh1, -⟩ := hh
        subst hh1
        exact Or.inr ⟨rfl, rfl⟩
    · simp only [g2, if_false, Option.some.injEq, Prod.mk.injEq] at hh
      obtain ⟨hh1, -⟩ := hh
      subst hh1
      exact Or.inl ⟨rfl, g2, rfl⟩
  · simp only [s_read_header, g1, if_false, Option.some.injEq, Prod.mk.injEq] at hh
    obtain ⟨hh1, -⟩ := hh
    subst hh1
    have : self.state = READING_BODY := by tauto
    exact Or.inr ⟨this, rfl⟩

/-- What a successful `s_read` leaves behind, whatever the cursor: either the
encoder is idle with nothing left, the PDU it held destroyed, or it is not
idle, with bytes left and the PDU still held. -/
theorem s_read_shape (K : encoder_consts) (self : zmtp_v3_encoder_t) (iobuf : iobuf_t)
    (status : Nat) (r : read_t) (h : s_read K self iobuf status = some r)
    (hret : r.ret = 0) :
    (r.self.state = WAITING_FOR_PDU ∧ r.self.bytes_left = 0 ∧ r.self.pdu = none ∧
      r.destroyed = self.pdu.toList ∧
      r.status = (0 &&& K.ZKERNEL_ENCODER_BUFFER_MASK) ||| K.ZKERNEL_ENCODER_READ_OK) ∨
    (r.self.state ≠ WAITING_FOR_PDU ∧ r.self.bytes_left ≠ 0 ∧ r.self.pdu = self.pdu ∧
      r.destroyed = [] ∧
      r.status = (r.self.bytes_left &&& K.ZKERNEL_ENCODER_BUFFER_MASK)
        ||| K.ZKERNEL_ENCODER_READY) := by
  have e1 : READING_HEADER ≠ WAITING_FOR_PDU := by decide
  have e2 : READING_BODY ≠ WAITING_FOR_PDU := by decide
  have e3 : READING_BODY ≠ READING_HEADER := by decide
  unfold s_read at h
  split_ifs at h with h1 h2
  · simp only [Option.some.injEq] at h
    subst h
    simp at hret
  · cases hh : s_read_header self iobuf with
    | none => simp [hh] at h
    | some p =>
      obtain ⟨s1, io1⟩ := p
      simp only [hh, Option.some.injEq] at h
      subst h
      have hs1 := s_read_header_shape self iobuf s1 io1 hh h2
      have hb := s_read_body_shape s1 io1
      generalize s_read_body s1 io1 = b at hb hret ⊢
      rcases hs1 with ⟨g1, g2, g3⟩ | ⟨g1, g3⟩
      · have g4 : s1.state ≠ READING_BODY := by rw [g1]; exact e3.symm
        have hb2 := hb.2 g4
        subst hb2
        refine Or.inr ⟨by rw [g1]; exact e1, g2, g3, rfl, ?_⟩
        simp only [ne_eq, g2, not_false_eq_true, if_true]
      · rcases hb.1 g1 with ⟨k1, k2, k3, k4⟩ | ⟨k1, k2, k3, k4⟩
        · refine Or.inl ⟨k1, k2, k3, by rw [k4, g3], ?_⟩
          simp only [k2, ne_eq, not_true_eq_false, if_false]
        · refine Or.inr ⟨by rw [k1]; exact e2, k2, by rw [k3, g3], k4, ?_⟩
          simp only [ne_eq, k2, not_false_eq_true, if_true]

/-- What a successful `s_advance` leaves behind, whatever the cursor: either
the encoder is idle with nothing left, the PDU it held destroyed and the
status `ZKERNEL_ENCODER_READY`, or it is not idle, with bytes left, the PDU
still held and the status the masked count with `ZKERNEL_ENCODER_READ_OK`. -/
theorem s_advance_shape (K : encoder_consts) (self : zmtp_v3_encoder_t) (n : Nat)
    (status : Nat) (r : call_t) (h : s_advance K self n status = some r)
    (hret : r.ret = 0) :
    (r.self.state = WAITING_FOR_PDU ∧ r.self.bytes_left = 0 ∧ r.self.pdu = none ∧
      r.destroyed = self.pdu.toList ∧ r.status = K.ZKERNEL_ENCODER_READY) ∨
    (r.self.state ≠ WAITING_FOR_PDU ∧ r.self.bytes_left ≠ 0 ∧ r.self.pdu = self.pdu ∧
      r.destroyed = [] ∧
      r.status = (r.self.bytes_left &&& K.ZKERNEL_ENCODER_BUFFER_MASK)
        ||| K.ZKERNEL_ENCODER_READ_OK) := by
  have e1 : READING_HEADER ≠ WAITING_FOR_PDU := by decide
  have e2 : READING_BODY ≠ WAITING_FOR_PDU := by decide
  unfold s_advance at h
  split_ifs at h with h1 h2 h3
  · simp only [Option.some.injEq] at h
    subst h
    simp at hret
  · simp only [Option.some.injEq] at h
    subst h
    simp at hret
  · cases hh : s_advance_header
        { self with ptr := self.ptr.add n, bytes_left := self.bytes_left - n } with
    | none => simp [hh] at h
    | some s1 =>
      simp only [hh] at h
      have hs1 : s1.pdu = self.pdu ∧ s1.state ≠ WAITING_FOR_PDU := by
        by_cases g1 : self.state = READING_HEADER
        · simp only [s_advance_header, g1, if_true] at hh
          by_cases g2 : self.bytes_left - n = 0
          · simp only [g2, if_true] at hh
            cases hp : self.pdu with
            | none => simp [hp] at hh
            | some pdu =>
              simp only [hp, Option.some.injEq] at hh
              subst hh
              exact ⟨rfl, e2⟩
          · simp only [g2, if_false, Option.some.injEq] at hh
            subst hh
            exact ⟨rfl, e1⟩
        · simp only [s_advance_header, g1, if_false, Option.some.injEq] at hh
          subst hh
          exact ⟨rfl, h1⟩
      obtain ⟨g3, g4⟩ := hs1
      split_ifs at h with g5
      · simp only [Option.some.injEq] at h
        subst h
        exact Or.inl ⟨rfl, g5, by rw [pdu_destroy_eq], by rw [pdu_destroy_eq, g3], rfl⟩
      · simp only [Option.some.injEq] at h
        subst h
        exact Or.inr ⟨g4, g5, g3, rfl, rfl⟩

/-! ## The hint of the status word -/

/-- A power of two above the mask is masked to zero. -/
theorem two_pow_and_mask (m k : Nat) (h : m < 2 ^ k) : 2 ^ k &&& m = 0 := by
  apply Nat.eq_of_testBit_eq
  intro i
  rw [Nat.testBit_and, Nat.testBit_two_pow, Nat.zero_testBit]
  by_cases hi : k = i
  · subst hi
    rw [Nat.testBit_lt_two_pow h, Bool.and_false]
  · simp only [hi, decide_False, Bool.false_and]

/-- Whatever the value of a non-zero mask, some count of bytes left has the
hint zero in the word `s_status` returns, which is not the smaller of the
count and the mask. -/
theorem s_status_hint_zero (K : encoder_consts) (self : zmtp_v3_encoder_t)
    (h1 : self.state ≠ WAITING_FOR_PDU)
    (h2 : K.ZKERNEL_ENCODER_READ_OK &&& K.ZKERNEL_ENCODER_BUFFER_MASK = 0)
    (h3 : K.ZKERNEL_ENCODER_BUFFER_MASK ≠ 0) :
    s_status K { self with bytes_left := 2 ^ K.ZKERNEL_ENCODER_BUFFER_MASK }
        &&& K.ZKERNEL_ENCODER_BUFFER_MASK = 0 ∧
    min (2 ^ K.ZKERNEL_ENCODER_BUFFER_MASK) K.ZKERNEL_ENCODER_BUFFER_MASK ≠ 0 := by
  constructor
  · simp only [s_status, h1, if_false]
    rw [hint_of_status _ _ _ h2]
    exact two_pow_and_mask _ _ (Nat.lt_two_pow _)
  · have := Nat.lt_two_pow K.ZKERNEL_ENCODER_BUFFER_MASK
    omega

/-- C14, refuted as stated.  With the mask `0xff`, the sample encoder in
`READING_BODY` with 256 bytes left is in flight, and the hint in the word
`s_status` returns is `256 & 0xff = 0`: it is not `min (256, 0xff) = 255`, and
it is zero although `bytes_left` is not. -/
theorem status_hint_not_clamped :
    in_flight sample_wide ∧ sample_wide.bytes_left = 256 ∧
    s_status sample_consts sample_wide &&& sample_consts.ZKERNEL_ENCODER_BUFFER_MASK = 0 ∧
    min sample_wide.bytes_left sample_consts.ZKERNEL_ENCODER_BUFFER_MASK = 255 ∧
    s_status sample_consts sample_wide &&& sample_consts.ZKERNEL_ENCODER_BUFFER_MASK
      ≠ min sample_wide.bytes_left sample_consts.ZKERNEL_ENCODER_BUFFER_MASK := by
  refine ⟨?_, rfl, by decide, by decide, by decide⟩
  show READING_BODY = READING_BODY ∧ 44 + 256 = 300 ∧
    (List.replicate 300 0x5a).length = 300
  exact ⟨rfl, rfl, List.length_replicate _ _⟩

/-- C14, amended.  With both flags outside the mask, the hint part
`status & ZKERNEL_ENCODER_BUFFER_MASK` of the word `s_status` returns for an
encoder that is not idle, and of the word a successful `s_read` or
`s_advance` writes, is `bytes_left & ZKERNEL_ENCODER_BUFFER_MASK`, for the
`bytes_left` the word describes.  That masked count is at most
`min (bytes_left, ZKERNEL_ENCODER_BUFFER_MASK)`, and it is `bytes_left` itself
when the mask is `2^k - 1` and `bytes_left` is at most the mask. -/
theorem status_hint_masked (K : encoder_consts) (self : zmtp_v3_encoder_t)
    (hy : K.ZKERNEL_ENCODER_READY &&& K.ZKERNEL_ENCODER_BUFFER_MASK = 0)
    (hk : K.ZKERNEL_ENCODER_READ_OK &&& K.ZKERNEL_ENCODER_BUFFER_MASK = 0) :
    (self.state ≠ WAITING_FOR_PDU →
      s_status K self &&& K.ZKERNEL_ENCODER_BUFFER_MASK
        = self.bytes_left &&& K.ZKERNEL_ENCODER_BUFFER_MASK) ∧
    (∀ (iobuf : iobuf_t) (status : Nat) (r : read_t),
      s_read K self iobuf status = some r → r.ret = 0 →
      r.status &&& K.ZKERNEL_ENCODER_BUFFER_MASK
        = r.self.bytes_left &&& K.ZKERNEL_ENCODER_BUFFER_MASK) ∧
    (∀ (n : Nat) (status : Nat) (r : call_t),
      s_advance K self n status = some r → r.ret = 0 →
      r.status &&& K.ZKERNEL_ENCODER_BUFFER_MASK
        = r.self.bytes_left &&& K.ZKERNEL_ENCODER_BUFFER_MASK) ∧
    self.bytes_left &&& K.ZKERNEL_ENCODER_BUFFER_MASK
      ≤ min self.bytes_left K.ZKERNEL_ENCODER_BUFFER_MASK ∧
    (∀ k : Nat, K.ZKERNEL_ENCODER_BUFFER_MASK = 2 ^ k - 1 →
      self.bytes_left ≤ K.ZKERNEL_ENCODER_BUFFER_MASK →
      self.bytes_left &&& K.ZKERNEL_ENCODER_BUFFER_MASK = self.bytes_left) := by
  refine ⟨?_, ?_, ?_, ?_, ?_⟩
  · intro h
    simp only [s_status, h, if_false]
    exact hint_of_status _ _ _ hk
  · intro iobuf status r hr hret
    rcases s_read_shape K self iobuf status r hr hret with ⟨-, k2, -, -, k5⟩ | ⟨-, -, -, -, k5⟩
    · rw [k5, k2]
      exact hint_of_status _ _ _ hk
    · rw [k5]
      exact hint_of_status _ _ _ hy
  · intro n status r hr hret
    rcases s_advance_shape K self n status r hr hret with ⟨-, k2, -, -, k5⟩ | ⟨-, -, -, -, k5⟩
    · rw [k5, k2, hy, Nat.zero_and]
    · rw [k5]
      exact hint_of_status _ _ _ hk
  · exact Nat.le_min.mpr ⟨Nat.and_le_left, Nat.and_le_right⟩
  · intro k hm hle
    have hpos : 0 < 2 ^ k := Nat.two_pow_pos k
    rw [hm]
    apply Nat.and_pow_two_sub_one_of_lt_two_pow
    omega

/-- C14, amended, at the sample constants and the sample encoder in
`READING_HEADER`: two bytes left, mask `0xff = 2^8 - 1`, hint 2. -/
theorem status_hint_masked_witness :
    (sample_consts.ZKERNEL_ENCODER_READY &&& sample_consts.ZKERNEL_ENCODER_BUFFER_MASK = 0 ∧
     sample_consts.ZKERNEL_ENCODER_READ_OK &&& sample_consts.ZKERNEL_ENCODER_BUFFER_MASK = 0) ∧
    s_status sample_consts sample_header &&& sample_consts.ZKERNEL_ENCODER_BUFFER_MASK
      = sample_header.bytes_left &&& sample_consts.ZKERNEL_ENCODER_BUFFER_MASK ∧
    sample_header.bytes_left &&& sample_consts.ZKERNEL_ENCODER_BUFFER_MASK
      = sample_header.bytes_left :=
  ⟨⟨by decide, by decide⟩,
   (status_hint_masked sample_consts sample_header (by decide) (by decide)).1 (by decide),
   (status_hint_masked sample_consts sample_header (by decide) (by decide)).2.2.2.2 8
     (by decide) (by decide)⟩

/-! ## `s_advance` and `s_read` side by side -/

/-- With a PDU held and `n ≤ bytes_left`, `s_advance (n)` in `READING_HEADER`
or `READING_BODY` returns 0. -/
theorem s_advance_returns (K : encoder_consts) (self : zmtp_v3_encoder_t) (n : Nat)
    (status : Nat) (h : self.state = READING_HEADER ∨ self.state = READING_BODY)
    (hp : self.pdu ≠ none) (hn : n ≤ self.bytes_left) :
    ∃ r, s_advance K self n status = some r ∧ r.ret = 0 := by
  have h1 : self.state ≠ WAITING_FOR_PDU := by
    rcases h with h | h <;> rw [h] <;> decide
  have hn2 : ¬ n > self.bytes_left := by omega
  obtain ⟨pdu, hpdu⟩ := Option.ne_none_iff_exists'.mp hp
  simp only [s_advance, s_advance_header, h1, h, hn2, hpdu, not_true_eq_false,
    if_false]
  by_cases hs : self.state = READING_HEADER <;>
    by_cases hb : self.bytes_left - n = 0 <;>
    by_cases hz : pdu.pdu_size = 0 <;>
    simp [hs, hb, hz]

/-- C18. For an encoder in `READING_HEADER` or `READING_BODY` that holds a
PDU, and `n ≤ bytes_left`, `s_advance (n)` returns 0 and the status it writes
is what `s_status` returns on the encoder after the call: either the encoder
is idle and the status is `ZKERNEL_ENCODER_READY`, or it is not idle, bytes
are left, and the status is
`(bytes_left & ZKERNEL_ENCODER_BUFFER_MASK) | ZKERNEL_ENCODER_READ_OK`; the
encoder is idle after the call if and only if no bytes are left; and with the
flags packed outside the hint field the status is `ZKERNEL_ENCODER_READY`
exactly when the encoder is idle. -/
theorem s_advance_status_agrees (K : encoder_consts) (self : zmtp_v3_encoder_t)
    (n : Nat) (status : Nat)
    (h : self.state = READING_HEADER ∨ self.state = READING_BODY)
    (hp : self.pdu ≠ none) (hn : n ≤ self.bytes_left) :
    ∃ r, s_advance K self n status = some r ∧ r.ret = 0 ∧
      r.status = s_status K r.self ∧
      ((r.self.state = WAITING_FOR_PDU ∧ r.status = K.ZKERNEL_ENCODER_READY) ∨
       (r.self.state ≠ WAITING_FOR_PDU ∧ 0 < r.self.bytes_left ∧
        r.status = (r.self.bytes_left &&& K.ZKERNEL_ENCODER_BUFFER_MASK)
          ||| K.ZKERNEL_ENCODER_READ_OK)) ∧
      (r.self.state = WAITING_FOR_PDU ↔ r.self.bytes_left = 0) ∧
      (status_packing K →
        (r.status = K.ZKERNEL_ENCODER_READY ↔ r.self.state = WAITING_FOR_PDU)) := by
  obtain ⟨r, hr, hret⟩ := s_advance_returns K self n status h hp hn
  refine ⟨r, hr, hret, ?_⟩
  rcases s_advance_shape K self n status r hr hret with
    ⟨k1, k2, -, -, k5⟩ | ⟨k1, k2, -, -, k5⟩
  · refine ⟨?_, Or.inl ⟨k1, k5⟩, ?_, ?_⟩
    · simp only [s_status, k1, if_true, k5]
    · exact ⟨fun _ => k2, fun _ => k1⟩
    · exact fun _ => ⟨fun _ => k1, fun _ => k5⟩
  · refine ⟨?_, Or.inr ⟨k1, Nat.pos_of_ne_zero k2, k5⟩, ?_, ?_⟩
    · simp only [s_status, k1, if_false, k5]
    · exact ⟨fun e => absurd e k1, fun e => absurd e k2⟩
    · rintro ⟨h0, hm, -, hrk⟩
      refine ⟨fun e => ?_, fun e => absurd e k1⟩
      have hz := flag_clear_of_status r.self.bytes_left _ _ _ hm hrk
      rw [← k5, e, Nat.and_self] at hz
      exact absurd hz h0

/-- C18 at the sample encoder in `READING_HEADER`: `advance (1)` leaves one
byte and writes `0x201`, which is what `s_status` then returns. -/
theorem s_advance_status_agrees_witness :
    (sample_header.state = READING_HEADER ∧ sample_header.pdu ≠ none ∧
      1 ≤ sample_header.bytes_left) ∧
    ∃ r, s_advance sample_consts sample_header 1 7 = some r ∧ r.ret = 0 ∧
      r.status = s_status sample_consts r.self ∧
      ((r.self.state = WAITING_FOR_PDU ∧
          r.status = sample_consts.ZKERNEL_ENCODER_READY) ∨
       (r.self.state ≠ WAITING_FOR_PDU ∧ 0 < r.self.bytes_left ∧
        r.status = (r.self.bytes_left &&& sample_consts.ZKERNEL_ENCODER_BUFFER_MASK)
          ||| sample_consts.ZKERNEL_ENCODER_READ_OK)) ∧
      (r.self.state = WAITING_FOR_PDU ↔ r.self.bytes_left = 0) ∧
      (status_packing sample_consts →
        (r.status = sample_consts.ZKERNEL_ENCODER_READY ↔
          r.self.state = WAITING_FOR_PDU)) :=
  ⟨⟨rfl, by decide, by decide⟩,
   s_advance_status_agrees sample_consts sample_header 1 7 (Or.inl rfl)
     (by decide) (by decide)⟩

/-- C17. An encoder in `READING_HEADER` that holds a PDU of size 0: a `read`
whose sink accepts the unconsumed header bytes, and `advance (n)` with `n`
the unconsumed header bytes, return 0 and leave the encoder in
`WAITING_FOR_PDU` in that same call, with the PDU destroyed; the sink gains
the header bytes and no other byte. -/
theorem empty_body_falls_through (K : encoder_consts) (self : zmtp_v3_encoder_t)
    (pdu : pdu_t) (hs : self.state = READING_HEADER) (hp : self.pdu = some pdu)
    (hz : pdu.pdu_size = 0) :
    (∀ (data : List Nat) (a : Nat) (rest : List Nat) (status : Nat),
      self.bytes_left ≤ a →
      ∃ r, s_read K self { data := data, accept := a :: rest } status = some r ∧
        r.ret = 0 ∧ r.self.state = WAITING_FOR_PDU ∧ r.self.pdu = none ∧
        r.self.bytes_left = 0 ∧ r.destroyed = [pdu] ∧
        r.iobuf.data = data ++ (self.mem self.ptr).take self.bytes_left) ∧
    (∀ (status : Nat),
      ∃ r, s_advance K self self.bytes_left status = some r ∧
        r.ret = 0 ∧ r.self.state = WAITING_FOR_PDU ∧ r.self.pdu = none ∧
        r.self.bytes_left = 0 ∧ r.destroyed = [pdu]) := by
  have e1 : READING_HEADER ≠ WAITING_FOR_PDU := by decide
  constructor
  · intro data a rest status ha
    have m1 : min self.bytes_left a = self.bytes_left := Nat.min_eq_left ha
    simp only [s_read, s_read_header, s_read_body, hs, e1, if_false, true_or,
      not_true_eq_false, if_true, iobuf_write, List.headD, List.tail, m1, Nat.sub_self,
      hp, hz, Nat.zero_min, pdu_destroy]
    refine ⟨_, rfl, rfl, rfl, rfl, rfl, rfl, ?_⟩
    simp only [List.take_zero, List.append_nil]
  · intro status
    simp only [s_advance, s_advance_header, hs, e1, if_false, true_or,
      not_true_eq_false, if_true, gt_iff_lt, Nat.lt_irrefl, Nat.sub_self, hp, hz,
      pdu_destroy]
    exact ⟨_, rfl, rfl, rfl, rfl, rfl, rfl⟩

/-- C17 at the sample encoder that holds the empty PDU with its two header
bytes unconsumed. -/
theorem empty_body_falls_through_witness :
    (sample_empty.state = READING_HEADER ∧ sample_empty.pdu = some pdu_empty ∧
      pdu_empty.pdu_size = 0) ∧
    (∃ r, s_read sample_consts sample_empty { data := [], accept := [2] } 7 = some r ∧
        r.ret = 0 ∧ r.self.state = WAITING_FOR_PDU ∧ r.self.pdu = none ∧
        r.self.bytes_left = 0 ∧ r.destroyed = [pdu_empty] ∧
        r.iobuf.data = [] ++ (sample_empty.mem sample_empty.ptr).take sample_empty.bytes_left) ∧
    (∃ r, s_advance sample_consts sample_empty sample_empty.bytes_left 7 = some r ∧
        r.ret = 0 ∧ r.self.state = WAITING_FOR_PDU ∧ r.self.pdu = none ∧
        r.self.bytes_left = 0 ∧ r.destroyed = [pdu_empty]) :=
  ⟨⟨rfl, rfl, rfl⟩,
   (empty_body_falls_through sample_consts sample_empty pdu_empty rfl rfl rfl).1
     [] 2 [] 7 (by decide),
   (empty_body_falls_through sample_consts sample_empty pdu_empty rfl rfl rfl).2 7⟩

/-- C19. For an encoder in `READING_HEADER` or `READING_BODY` that holds a
PDU, and `n ≤ bytes_left`: a `read` into a sink that accepts exactly `n` bytes
of the current segment and nothing on a second write, and `advance (n)`, both
return 0 and leave the same encoder (state, cursor, `bytes_left`, PDU held or
null, every other field) and destroy the same PDUs; the sink gains the first
`n` bytes of the view `s_buffer` returns before the call. -/
theorem read_matches_advance (K : encoder_consts) (self : zmtp_v3_encoder_t)
    (n a : Nat) (data rest : List Nat) (status1 status2 : Nat)
    (h : self.state = READING_HEADER ∨ self.state = READING_BODY)
    (hp : self.pdu ≠ none) (hn : n ≤ self.bytes_left)
    (ha : min self.bytes_left a = n) :
    ∃ r c, s_read K self { data := data, accept := a :: 0 :: rest } status1 = some r ∧
      s_advance K self n status2 = some c ∧ r.ret = 0 ∧ c.ret = 0 ∧
      r.self = c.self ∧ r.destroyed = c.destroyed ∧
      r.iobuf.data = data ++ (self.mem (s_buffer self).buffer).take n := by
  have e1 : READING_HEADER ≠ WAITING_FOR_PDU := by decide
  have e2 : READING_BODY ≠ WAITING_FOR_PDU := by decide
  have e3 : READING_BODY ≠ READING_HEADER := by decide
  obtain ⟨base, state, buffer, pdu, ptr, bl⟩ := self
  simp only at h hp hn ha
  have hn2 : ¬ n > bl := by omega
  obtain ⟨pdu, hpdu⟩ := Option.ne_none_iff_exists'.mp hp
  subst hpdu
  have hw : ∀ src : List Nat,
      iobuf_write { data := data, accept := a :: 0 :: rest } src bl
        = ({ data := data ++ src.take n, accept := 0 :: rest }, n) := by
    intro src
    simp only [iobuf_write, List.headD, List.tail, ha]
  have hw2 : ∀ (d src : List Nat) (m : Nat),
      iobuf_write { data := d, accept := 0 :: rest } src m
        = ({ data := d, accept := rest }, 0) := by
    intro d src m
    simp only [iobuf_write, List.headD, List.tail, Nat.min_zero, List.take_zero,
      List.append_nil]
  rcases h with hs | hs
  · subst hs
    by_cases hb : bl - n = 0
    · by_cases hz : pdu.pdu_size = 0
      · simp only [s_read, s_read_header, s_read_body, e1, if_false, true_or,
          not_true_eq_false, if_true, hw, hb, hw2, hz, Nat.sub_zero, pdu_destroy,
          ptr_t.add, Nat.add_zero, ne_eq, s_advance, s_advance_header, hn2, s_buffer]
        exact ⟨_, _, rfl, rfl, rfl, rfl, rfl, rfl, rfl⟩
      · simp only [s_read, s_read_header, s_read_body, e1, if_false, true_or,
          not_true_eq_false, if_true, hw, hb, hw2, hz, Nat.sub_zero,
          ptr_t.add, Nat.add_zero, ne_eq, s_advance, s_advance_header, hn2, s_buffer]
        exact ⟨_, _, rfl, rfl, rfl, rfl, rfl, rfl, rfl⟩
    · simp only [s_read, s_read_header, s_read_body, e1, e3.symm, if_false, true_or,
        not_true_eq_false, if_true, hw, hb, ne_eq, s_advance, s_advance_header, hn2,
        s_buffer]
      exact ⟨_, _, rfl, rfl, rfl, rfl, rfl, rfl, rfl⟩
  · subst hs
    by_cases hb : bl - n = 0
    · simp only [s_read, s_read_header, s_read_body, e2, e3, if_false, or_true,
        not_true_eq_false, if_true, hw, hb, pdu_destroy, ne_eq, s_advance,
        s_advance_header, hn2, s_buffer]
      exact ⟨_, _, rfl, rfl, rfl, rfl, rfl, rfl, rfl⟩
    · simp only [s_read, s_read_header, s_read_body, e2, e3, if_false, or_true,
        not_true_eq_false, if_true, hw, hb, ne_eq, s_advance, s_advance_header, hn2,
        s_buffer]
      exact ⟨_, _, rfl, rfl, rfl, rfl, rfl, rfl, rfl⟩

/-- C19 at the sample encoder in `READING_HEADER`, for `n = 2`, the whole
header: `read` and `advance (2)` both leave the body state with the cursor on
the first body byte, and the sink holds `00 03`. -/
theorem read_matches_advance_witness :
    (sample_header.state = READING_HEADER ∧ sample_header.pdu ≠ none ∧
      min sample_header.bytes_left 2 = 2) ∧
    ∃ r c, s_read sample_consts sample_header { data := [], accept := [2, 0] } 7 = some r ∧
      s_advance sample_consts sample_header 2 7 = some c ∧ r.ret = 0 ∧ c.ret = 0 ∧
      r.self = c.self ∧ r.destroyed = c.destroyed ∧
      r.iobuf.data = [] ++ (sample_header.mem (s_buffer sample_header).buffer).take 2 :=
  ⟨⟨rfl, by decide, by decide⟩,
   read_matches_advance sample_consts sample_header 2 2 [] [] 7 7 (Or.inl rfl)
     (by decide) (by decide) (by decide)⟩

/-! ## Construction and destruction -/

/-- C20, evaluated on the code: the encoder `s_new` makes is idle (state
`WAITING_FOR_PDU`, no PDU, `bytes_left` 0), but its operation table is a copy
of `encoder_ops`, the table without initialiser, not of `ops`: each of the six
entries is a null pointer, while the entries of `ops` are the six functions. -/
theorem s_new_table_is_null :
    s_new.state = WAITING_FOR_PDU ∧ s_new.pdu = none ∧ s_new.bytes_left = 0 ∧
    s_new.base.ops = encoder_ops ∧
    s_new.base.ops.encode = none ∧ s_new.base.ops.read = none ∧
    s_new.base.ops.buffer = none ∧ s_new.base.ops.advance = none ∧
    s_new.base.ops.status = none ∧ s_new.base.ops.destroy = none ∧
    s_new.base.ops ≠ ops ∧
    ops.encode = some encoder_fn.s_encode ∧ ops.read = some encoder_fn.s_read ∧
    ops.buffer = some encoder_fn.s_buffer ∧ ops.advance = some encoder_fn.s_advance ∧
    ops.status = some encoder_fn.s_status ∧ ops.destroy = some encoder_fn.s_destroy := by
  refine ⟨rfl, rfl, rfl, rfl, rfl, rfl, rfl, rfl, rfl, rfl, by decide,
    rfl, rfl, rfl, rfl, rfl, rfl⟩

/-- C16, evaluated on the code.  `s_destroy` does what the claim says: on a
null reference it does nothing; on a live encoder, in every state, it
destroys the PDU exactly when one is held, frees the encoder and nulls the
reference, so that a second call does nothing.  `encoder_destroy` does nothing
on a null reference and is `s_destroy` when the table entry is `s_destroy`;
but on the encoder `s_new` makes, and on every encoder with that table, the
entry is a null pointer and the call through it does not return. -/
theorem destroy_through_null_table :
    s_destroy none = { base_p := none, destroyed := [], freed := [] } ∧
    (∀ self : zmtp_v3_encoder_t,
      s_destroy (some self) =
        { base_p := none, destroyed := self.pdu.toList,
          freed := [{ self with pdu := none }] }) ∧
    (∀ self : zmtp_v3_encoder_t,
      s_destroy (s_destroy (some self)).base_p =
        { base_p := none, destroyed := [], freed := [] }) ∧
    encoder_destroy none = some { base_p := none, destroyed := [], freed := [] } ∧
    (∀ self : zmtp_v3_encoder_t, self.base.ops.destroy = some encoder_fn.s_destroy →
      encoder_destroy (some self) = some (s_destroy (some self))) ∧
    encoder_destroy (some s_new) = none ∧
    encoder_destroy (some after_encode_abc) = none ∧
    (∀ self : zmtp_v3_encoder_t, self.base.ops = s_new.base.ops →
      encoder_destroy (some self) = none) := by
  refine ⟨rfl, ?_, fun _ => rfl, rfl, ?_, rfl, rfl, ?_⟩
  · intro self
    cases hp : self.pdu with
    | none => simp [s_destroy, hp]
    | some pdu => simp [s_destroy, hp, pdu_destroy]
  · intro self h
    simp only [encoder_destroy, h]
  · intro self h
    have h2 : self.base.ops.destroy = none := by rw [h]; rfl
    simp only [encoder_destroy, h2]

/-! ## After the drain -/

/-- An encoder in flight with bytes left in its segment has bytes to hand
out. -/
theorem remaining_ne_nil (self : zmtp_v3_encoder_t) (h : in_flight self)
    (hb : self.bytes_left ≠ 0) : remaining self ≠ [] := by
  obtain ⟨base, state, buffer, pdu, ptr, bl⟩ := self
  simp only at hb
  cases pdu with
  | none => simp [in_flight] at h
  | some pdu =>
  cases ptr with
  | null => simp [in_flight] at h
  | buffer off =>
    simp only [in_flight] at h
    obtain ⟨-, hoff, -⟩ := h
    intro hnil
    have hl := congrArg List.length hnil
    simp only [remaining, List.length_append, List.length_take, List.length_drop,
      Mathlib.Vector.toList_length, List.length_nil] at hl
    omega
  | pdu_data off =>
    simp only [in_flight] at h
    obtain ⟨-, hoff, hlen⟩ := h
    intro hnil
    have hl := congrArg List.length hnil
    simp only [remaining, List.length_drop, List.length_nil] at hl
    omega

/-- One successful driver call on an encoder in flight leaves it in flight
with bytes left in its segment, the PDU held and nothing destroyed, or at
rest with no bytes left and the PDU it held destroyed. -/
theorem drain_step_settles (K : encoder_consts) (self self1 : zmtp_v3_encoder_t)
    (op : drain_op) (out : List Nat) (h : in_flight self)
    (hd : drain_step K self op = some (self1, out)) :
    (in_flight self1 ∧ self1.bytes_left ≠ 0 ∧ self1.pdu = self.pdu ∧
      drain_step_destroyed K self op = []) ∨
    (at_rest self1 ∧ self1.bytes_left = 0 ∧
      drain_step_destroyed K self op = self.pdu.toList) := by
  obtain ⟨-, hinv⟩ := drain_step_progress K self self1 op out h hd
  cases op with
  | read accept =>
    cases hr : s_read K self { data := [], accept := accept } 0 with
    | none => simp [drain_step, hr] at hd
    | some r =>
      simp only [drain_step, hr] at hd
      split_ifs at hd with hret
      simp only [Option.some.injEq, Prod.mk.injEq] at hd
      obtain ⟨h1, -⟩ := hd
      subst h1
      simp only [drain_step_destroyed, hr]
      rcases s_read_shape K self _ 0 r hr hret with
        ⟨k1, k2, k3, k4, -⟩ | ⟨k1, k2, k3, k4, -⟩
      · exact Or.inr ⟨⟨k1, k3⟩, k2, k4⟩
      · rcases hinv with hf | hrest
        · exact Or.inl ⟨hf, k2, k3, k4⟩
        · exact absurd hrest.1 k1
  | advance n =>
    cases hr : s_advance K self n 0 with
    | none =>
      simp only [drain_step, hr] at hd
      split_ifs at hd
    | some r =>
      simp only [drain_step, hr] at hd
      split_ifs at hd with hn hret
      simp only [Option.some.injEq, Prod.mk.injEq] at hd
      obtain ⟨h1, -⟩ := hd
      subst h1
      simp only [drain_step_destroyed, hr]
      rcases s_advance_shape K self n 0 r hr hret with
        ⟨k1, k2, k3, k4, -⟩ | ⟨k1, k2, k3, k4, -⟩
      · exact Or.inr ⟨⟨k1, k3⟩, k2, k4⟩
      · rcases hinv with hf | hrest
        · exact Or.inl ⟨hf, k2, k3, k4⟩
        · exact absurd hrest.1 k1

/-- A sequence of one or more successful driver calls on an encoder in flight
leaves it in flight with bytes left in its segment, the PDU held and nothing
destroyed, or at rest with no bytes left and the PDU it held destroyed,
once. -/
theorem drain_settles (K : encoder_consts) (ops : List drain_op) :
    ∀ (self self1 : zmtp_v3_encoder_t) (out : List Nat),
      in_flight self → ops ≠ [] → drain K self ops = some (self1, out) →
      (in_flight self1 ∧ self1.bytes_left ≠ 0 ∧ self1.pdu = self.pdu ∧
        drain_destroyed K self ops = []) ∨
      (at_rest self1 ∧ self1.bytes_left = 0 ∧
        drain_destroyed K self ops = self.pdu.toList) := by
  induction ops with
  | nil => intro self self1 out _ hne; exact absurd rfl hne
  | cons op rest ih =>
    intro self self1 out hf _ hd
    simp only [drain] at hd
    cases hstep : drain_step K self op with
    | none => simp [hstep] at hd
    | some p =>
      obtain ⟨self2, out2⟩ := p
      simp only [hstep] at hd
      cases hrest : drain K self2 rest with
      | none => simp [hrest] at hd
      | some q =>
        obtain ⟨self3, out3⟩ := q
        simp only [hrest, Option.some.injEq, Prod.mk.injEq] at hd
        obtain ⟨h1, -⟩ := hd
        subst h1
        simp only [drain_destroyed, hstep]
        rcases drain_step_settles K self self2 op out2 hf hstep with
          ⟨g1, g2, g3, g4⟩ | ⟨g1, g2, g4⟩
        · cases rest with
          | nil =>
            simp only [drain, Option.some.injEq, Prod.mk.injEq] at hrest
            obtain ⟨h2, -⟩ := hrest
            subst h2
            exact Or.inl ⟨g1, g2, g3, by simp only [g4, drain_destroyed, List.append_nil]⟩
          | cons op2 rest2 =>
            rcases ih self2 self3 out3 g1 (List.cons_ne_nil _ _) hrest with
              ⟨k1, k2, k3, k4⟩ | ⟨k1, k2, k4⟩
            · exact Or.inl ⟨k1, k2, by rw [k3, g3], by rw [g4, k4, List.append_nil]⟩
            · exact Or.inr ⟨k1, k2, by rw [g4, k4, g3, List.nil_append]⟩
        · cases rest with
          | nil =>
            simp only [drain, Option.some.injEq, Prod.mk.injEq] at hrest
            obtain ⟨h2, -⟩ := hrest
            subst h2
            exact Or.inr ⟨g1, g2, by simp only [g4, drain_destroyed, List.append_nil]⟩
          | cons op2 rest2 =>
            simp [drain, drain_step_at_rest K self2 op2 g1.1] at hrest

/-- On an idle encoder that holds no PDU, `s_encode` returns 0. -/
theorem s_encode_at_rest (K : encoder_consts) (self : zmtp_v3_encoder_t) (pdu : pdu_t)
    (status : Nat) (h : at_rest self) :
    ∃ r, s_encode K self pdu status = some r ∧ r.ret = 0 := by
  obtain ⟨h1, h2⟩ := h
  by_cases hz : pdu.pdu_size > 255 <;>
    simp [s_encode, h1, h2, hz]

/-- C12. For an encoder with a PDU in flight, once a sequence of one or more
successful `read` / `advance` calls has delivered every byte the encoder had
to hand out, the last body byte included, the encoder is in `WAITING_FOR_PDU`
with `bytes_left` 0 and the PDU reference null, the PDU it held has been
destroyed, once, `s_status` returns `ZKERNEL_ENCODER_READY`, and `s_encode` of
any new PDU returns 0. -/
theorem reuse_after_full_drain (K : encoder_consts) (self self1 : zmtp_v3_encoder_t)
    (ops : List drain_op) (out : List Nat) (h : in_flight self) (hne : ops ≠ [])
    (hd : drain K self ops = some (self1, out)) (hall : out = remaining self) :
    self1.state = WAITING_FOR_PDU ∧ self1.bytes_left = 0 ∧ self1.pdu = none ∧
    drain_destroyed K self ops = self.pdu.toList ∧
    s_status K self1 = K.ZKERNEL_ENCODER_READY ∧
    (∀ (pdu : pdu_t) (status : Nat),
      ∃ r, s_encode K self1 pdu status = some r ∧ r.ret = 0) := by
  obtain ⟨hrem, -⟩ := drain_progress K ops self self1 out (Or.inl h) hd
  have hnil : remaining self1 = [] := by
    rw [← hall] at hrem
    exact List.append_right_eq_self.mp hrem.symm
  rcases drain_settles K ops self self1 out h hne hd with
    ⟨g1, g2, -, -⟩ | ⟨g1, g2, g4⟩
  · exact absurd hnil (remaining_ne_nil self1 g1 g2)
  · refine ⟨g1.1, g2, g1.2, g4, ?_, fun pdu status => s_encode_at_rest K self1 pdu status g1⟩
    simp only [s_status, g1.1, if_true]

/-- C12 at the sample encoder in `READING_HEADER`: after a `read` of one
byte, an `advance (1)` and a `read` of the three body bytes the encoder is
idle, the three-byte PDU destroyed, and it takes the 300-byte PDU. -/
theorem reuse_after_full_drain_witness :
    (in_flight sample_header ∧
      drain sample_consts sample_header
        [drain_op.read [1], drain_op.advance 1, drain_op.read [3]]
        = some (sample_drained, remaining sample_header)) ∧
    drain_destroyed sample_consts sample_header
        [drain_op.read [1], drain_op.advance 1, drain_op.read [3]] = [pdu_abc] ∧
    ∃ r, s_encode sample_consts sample_drained pdu_300 7 = some r ∧ r.ret = 0 :=
  ⟨⟨by decide, by decide⟩,
   (reuse_after_full_drain sample_consts sample_header sample_drained
     [drain_op.read [1], drain_op.advance 1, drain_op.read [3]] (remaining sample_header)
     (by decide) (by decide) (by decide) rfl).2.2.2.1,
   (reuse_after_full_drain sample_consts sample_header sample_drained
     [drain_op.read [1], drain_op.advance 1, drain_op.read [3]] (remaining sample_header)
     (by decide) (by decide) (by decide) rfl).2.2.2.2.2 pdu_300 7⟩

/-! ## Reading into a sink that takes one byte -/

/-- A successful driver call followed by a successful sequence is a
successful sequence. -/
theorem drain_cons (K : encoder_consts) (self self1 self2 : zmtp_v3_encoder_t)
    (op : drain_op) (rest : List drain_op) (out1 out2 : List Nat)
    (h1 : drain_step K self op = some (self1, out1))
    (h2 : drain K self1 rest = some (self2, out2)) :
    drain K self (op :: rest) = some (self2, out1 ++ out2) := by
  simp only [drain, h1, h2]

/-- In `READING_BODY` with `m + 1` bytes left, a `read` whose first write
takes one byte leaves `m` bytes in the body, or the encoder at rest when
`m = 0`. -/
theorem body_read_one (K : encoder_consts) (self : zmtp_v3_encoder_t) (m : Nat)
    (rest : List Nat) (h : in_flight self) (hs : self.state = READING_BODY)
    (hb : self.bytes_left = m + 1) :
    ∃ self1 out, drain_step K self (drain_op.read (1 :: rest)) = some (self1, out) ∧
      ((m = 0 ∧ at_rest self1) ∨
       (m ≠ 0 ∧ in_flight self1 ∧ self1.state = READING_BODY ∧ self1.bytes_left = m)) := by
  have e2 : READING_BODY ≠ WAITING_FOR_PDU := by decide
  have e3 : READING_BODY ≠ READING_HEADER := by decide
  obtain ⟨base, state, buffer, pdu, ptr, bl⟩ := self
  simp only at hs hb
  subst hs
  subst hb
  cases pdu with
  | none => simp [in_flight] at h
  | some pdu =>
  cases ptr with
  | null => simp [in_flight] at h
  | buffer off => simp [in_flight, e3] at h
  | pdu_data off =>
    simp only [in_flight] at h
    obtain ⟨-, hoff, hlen⟩ := h
    have m1 : min (m + 1) 1 = 1 := by omega
    have m2 : m + 1 - 1 = m := by omega
    simp only [drain_step, s_read, s_read_header, s_read_body, e2, e3, if_false, or_true,
      not_true_eq_false, if_true, iobuf_write, List.headD, List.tail, m1, m2, pdu_destroy,
      ptr_t.add]
    by_cases hm : m = 0
    · simp only [hm, if_true]
      exact ⟨_, _, rfl, Or.inl ⟨trivial, rfl, rfl⟩⟩
    · simp only [hm, if_false]
      refine ⟨_, _, rfl, Or.inr ⟨hm, ?_, rfl, rfl⟩⟩
      simp only [in_flight]
      exact ⟨trivial, by omega, hlen⟩

/-- In `READING_BODY` with `m + 1` bytes left, reads whose first write takes
one byte succeed and leave the encoder short of idle for `m` calls, and at
rest after `m + 1` calls. -/
theorem body_countdown (K : encoder_consts) (rest : List Nat) (m : Nat) :
    ∀ self : zmtp_v3_encoder_t, in_flight self → self.state = READING_BODY →
      self.bytes_left = m + 1 →
      (∀ k, k ≤ m → ∃ self1 out,
        drain K self (List.replicate k (drain_op.read (1 :: rest))) = some (self1, out) ∧
        self1.state ≠ WAITING_FOR_PDU) ∧
      (∃ self1 out,
        drain K self (List.replicate (m + 1) (drain_op.read (1 :: rest)))
          = some (self1, out) ∧ at_rest self1) := by
  have e2 : READING_BODY ≠ WAITING_FOR_PDU := by decide
  induction m with
  | zero =>
    intro self h hs hb
    obtain ⟨self1, out, hstep, hcase⟩ := body_read_one K self 0 rest h hs hb
    rcases hcase with ⟨-, hr⟩ | ⟨hm, -⟩
    · constructor
      · intro k hk
        have hk0 : k = 0 := by omega
        subst hk0
        exact ⟨self, [], rfl, by rw [hs]; exact e2⟩
      · exact ⟨self1, out ++ [], drain_cons K self self1 self1 _ [] out [] hstep rfl, hr⟩
    · exact absurd rfl hm
  | succ m ih =>
    intro self h hs hb
    obtain ⟨self1, out, hstep, hcase⟩ := body_read_one K self (m + 1) rest h hs hb
    rcases hcase with ⟨hm, -⟩ | ⟨-, hf, hs1, hb1⟩
    · omega
    · obtain ⟨ih1, ih2⟩ := ih self1 hf hs1 hb1
      constructor
      · intro k hk
        cases k with
        | zero => exact ⟨self, [], rfl, by rw [hs]; exact e2⟩
        | succ k =>
          obtain ⟨self2, out2, hd2, hn2⟩ := ih1 k (by omega)
          exact ⟨self2, out ++ out2,
            drain_cons K self self1 self2 _ _ out out2 hstep hd2, hn2⟩
      · obtain ⟨self2, out2, hd2, hr2⟩ := ih2
        exact ⟨self2, out ++ out2,
          drain_cons K self self1 self2 _ _ out out2 hstep hd2, hr2⟩

/-- In `READING_HEADER` with two bytes left, a `read` whose first write takes
one byte leaves one header byte. -/
theorem header_read_first (K : encoder_consts) (self : zmtp_v3_encoder_t)
    (rest : List Nat) (h : in_flight self) (hs : self.state = READING_HEADER)
    (hb : self.bytes_left = 2) :
    ∃ self1 out, drain_step K self (drain_op.read (1 :: rest)) = some (self1, out) ∧
      in_flight self1 ∧ self1.state = READING_HEADER ∧ self1.bytes_left = 1 ∧
      self1.pdu = self.pdu := by
  have e1 : READING_HEADER ≠ WAITING_FOR_PDU := by decide
  have e3 : READING_BODY ≠ READING_HEADER := by decide
  obtain ⟨base, state, buffer, pdu, ptr, bl⟩ := self
  simp only at hs hb
  subst hs
  subst hb
  cases pdu with
  | none => simp [in_flight] at h
  | some pdu =>
  cases ptr with
  | null => simp [in_flight] at h
  | pdu_data off => simp [in_flight, e3.symm] at h
  | buffer off =>
    simp only [in_flight] at h
    obtain ⟨-, hoff, hlen⟩ := h
    have m1 : min 2 1 = 1 := by decide
    have m2 : 2 - 1 = 1 := by decide
    have m3 : ¬ (1 = 0) := by decide
    simp only [drain_step, s_read, s_read_header, s_read_body, e1, e3.symm, if_false,
      true_or, not_true_eq_false, if_true, iobuf_write, List.headD, List.tail, m1, m2, m3,
      ptr_t.add]
    refine ⟨_, _, rfl, ?_, rfl, rfl, rfl⟩
    simp only [in_flight]
    exact ⟨trivial, by omega, hlen⟩

/-- In `READING_HEADER` with one byte left, a `read` whose first write takes
one byte and whose second write takes `x` bytes at most leaves the body short
of the `x` bytes the second write took, or the encoder at rest when the body
has at most `x` bytes. -/
theorem header_read_last (K : encoder_consts) (self : zmtp_v3_encoder_t) (pdu : pdu_t)
    (x : Nat) (h : in_flight self) (hs : self.state = READING_HEADER)
    (hb : self.bytes_left = 1) (hp : self.pdu = some pdu) :
    ∃ self1 out, drain_step K self (drain_op.read [1, x]) = some (self1, out) ∧
      ((pdu.pdu_size ≤ x ∧ at_rest self1) ∨
       (x < pdu.pdu_size ∧ in_flight self1 ∧ self1.state = READING_BODY ∧
        self1.bytes_left = pdu.pdu_size - x)) := by
  have e1 : READING_HEADER ≠ WAITING_FOR_PDU := by decide
  have e3 : READING_BODY ≠ READING_HEADER := by decide
  obtain ⟨base, state, buffer, pdu0, ptr, bl⟩ := self
  simp only at hs hb hp
  subst hs
  subst hb
  subst hp
  cases ptr with
  | null => simp [in_flight] at h
  | pdu_data off => simp [in_flight, e3.symm] at h
  | buffer off =>
    simp only [in_flight] at h
    obtain ⟨-, hoff, hlen⟩ := h
    have m1 : min 1 1 = 1 := by decide
    simp only [drain_step, s_read, s_read_header, s_read_body, e1, if_false,
      true_or, not_true_eq_false, if_true, iobuf_write, List.headD, List.tail, m1,
      Nat.sub_self, ptr_t.add, pdu_destroy]
    by_cases hz : pdu.pdu_size ≤ x
    · have m2 : min pdu.pdu_size x = pdu.pdu_size := Nat.min_eq_left hz
      simp only [m2, Nat.sub_self, if_true]
      exact ⟨_, _, rfl, Or.inl ⟨hz, rfl, rfl⟩⟩
    · have m2 : min pdu.pdu_size x = x := Nat.min_eq_right (by omega)
      have m3 : ¬ (pdu.pdu_size - x = 0) := by omega
      simp only [m2, m3, if_false]
      refine ⟨_, _, rfl, Or.inr ⟨by omega, ?_, rfl, rfl⟩⟩
      simp only [in_flight]
      exact ⟨trivial, by omega, hlen⟩

/-- With the two header bytes unconsumed, reads whose first write takes one
byte and whose second write takes `x` bytes at most succeed and leave the
encoder short of idle for fewer than `2 + (size - x)` calls, and at rest after
`2 + (size - x)` calls. -/
theorem one_byte_calls (K : encoder_consts) (self : zmtp_v3_encoder_t) (pdu : pdu_t)
    (x : Nat) (h : in_flight self) (hs : self.state = READING_HEADER)
    (hb : self.bytes_left = 2) (hp : self.pdu = some pdu) :
    (∀ k, k < 2 + (pdu.pdu_size - x) → ∃ self1 out,
      drain K self (List.replicate k (drain_op.read [1, x])) = some (self1, out) ∧
      self1.state ≠ WAITING_FOR_PDU) ∧
    (∃ self1 out,
      drain K self (List.replicate (2 + (pdu.pdu_size - x)) (drain_op.read [1, x]))
        = some (self1, out) ∧ at_rest self1) := by
  have e1 : READING_HEADER ≠ WAITING_FOR_PDU := by decide
  obtain ⟨sa, oa, hda, hfa, hsa, hba, hpa⟩ := header_read_first K self [x] h hs hb
  obtain ⟨sb, ob, hdb, hcase⟩ := header_read_last K sa pdu x hfa hsa hba (by rw [hpa, hp])
  have hk0 : ∃ self1 out, drain K self (List.replicate 0 (drain_op.read [1, x]))
      = some (self1, out) ∧ self1.state ≠ WAITING_FOR_PDU :=
    ⟨self, [], rfl, by rw [hs]; exact e1⟩
  have hk1 : ∃ self1 out, drain K self (List.replicate 1 (drain_op.read [1, x]))
      = some (self1, out) ∧ self1.state ≠ WAITING_FOR_PDU :=
    ⟨sa, oa ++ [], drain_cons K self sa sa _ [] oa [] hda rfl, by rw [hsa]; exact e1⟩
  rcases hcase with ⟨hle, hr⟩ | ⟨hlt, hfb, hsb, hbb⟩
  · have hz : pdu.pdu_size - x = 0 := by omega
    rw [hz]
    constructor
    · intro k hk
      have : k = 0 ∨ k = 1 := by omega
      rcases this with hk | hk <;> subst hk
      · exact hk0
      · exact hk1
    · exact ⟨sb, oa ++ (ob ++ []),
        drain_cons K self sa sb _ _ oa _ hda (drain_cons K sa sb sb _ [] ob [] hdb rfl), hr⟩
  · obtain ⟨m, hm⟩ : ∃ m, pdu.pdu_size - x = m + 1 := ⟨pdu.pdu_size - x - 1, by omega⟩
    rw [hm] at hbb ⊢
    obtain ⟨c1, c2⟩ := body_countdown K [x] m sb hfb hsb hbb
    constructor
    · intro k hk
      match k, hk with
      | 0, _ => exact hk0
      | 1, _ => exact hk1
      | k + 2, hk =>
        obtain ⟨s2, o2, hd2, hn2⟩ := c1 k (by omega)
        exact ⟨s2, oa ++ (ob ++ o2),
          drain_cons K self sa s2 _ _ oa _ hda (drain_cons K sa sb s2 _ _ ob o2 hdb hd2), hn2⟩
    · obtain ⟨s2, o2, hd2, hr2⟩ := c2
      refine ⟨s2, oa ++ (ob ++ o2), ?_, hr2⟩
      rw [show 2 + (m + 1) = (m + 1) + 1 + 1 by omega, List.replicate_succ,
        List.replicate_succ]
      exact drain_cons K self sa s2 _ _ oa _ hda (drain_cons K sa sb s2 _ _ ob o2 hdb hd2)

/-- A drain of an encoder in flight that ends at rest after one or more calls
has delivered every byte the encoder had to hand out and destroyed the PDU it
held. -/
theorem drained_at_rest (K : encoder_consts) (self self1 : zmtp_v3_encoder_t)
    (ops : List drain_op) (out : List Nat) (h : in_flight self) (hne : ops ≠ [])
    (hd : drain K self ops = some (self1, out)) (hr : at_rest self1) :
    out = remaining self ∧ drain_destroyed K self ops = self.pdu.toList := by
  obtain ⟨hrem, -⟩ := drain_progress K ops self self1 out (Or.inl h) hd
  have hnil : remaining self1 = [] := by simp only [remaining, hr.2]
  constructor
  · rw [hrem, hnil, List.append_nil]
  · rcases drain_settles K ops self self1 out h hne hd with ⟨g1, -, -, -⟩ | ⟨-, -, g4⟩
    · exact absurd hr.1 (in_flight_state self1 g1)
    · exact g4

/-- C15, refuted as stated.  On the sample encoder whose header `00 03` is
unconsumed (a body of 3 bytes), with every `iobuf_write` accepting
`min (1, offered)` bytes: the second `read` takes the last header byte and, in
its second write, the first body byte, so the encoder is idle after 4 calls,
fewer than `2 + 3`, and the fifth call does not return 0. -/
theorem one_byte_sink_idle_early :
    in_flight sample_header ∧ sample_header.state = READING_HEADER ∧
    sample_header.bytes_left = 2 ∧ sample_header.pdu = some pdu_abc ∧
    pdu_abc.pdu_size = 3 ∧
    drain sample_consts sample_header (List.replicate 4 (drain_op.read [1, 1]))
      = some (sample_drained, [0x00, 0x03, 0x41, 0x42, 0x43]) ∧
    sample_drained.state = WAITING_FOR_PDU ∧ 4 < 2 + pdu_abc.pdu_size ∧
    drain sample_consts sample_header
      (List.replicate (2 + pdu_abc.pdu_size) (drain_op.read [1, 1])) = none := by
  decide

/-- C15, amended.  For a PDU of size `s` whose 2-byte header is queued and
unconsumed (state `READING_HEADER`, `bytes_left` 2), with `read` called
repeatedly on a fresh sink.  When the sink has room for one byte in a call
(its first `iobuf_write` accepts `min (1, offered)` bytes, a second one
nothing), every call succeeds, the encoder is not idle after fewer than
`2 + s` calls, and after exactly `2 + s` calls it is idle, every byte
delivered and the PDU destroyed.  When each `iobuf_write` accepts
`min (1, offered)` bytes, the same holds with `max (2, s + 1)` calls in place
of `2 + s`, the call that ends the header taking the first body byte too. -/
theorem one_byte_sink (K : encoder_consts) (self : zmtp_v3_encoder_t) (pdu : pdu_t)
    (h : in_flight self) (hs : self.state = READING_HEADER)
    (hb : self.bytes_left = 2) (hp : self.pdu = some pdu) :
    ((∀ k, k < 2 + pdu.pdu_size → ∃ self1 out,
        drain K self (List.replicate k (drain_op.read [1, 0])) = some (self1, out) ∧
        self1.state ≠ WAITING_FOR_PDU) ∧
     (∃ self1,
        drain K self (List.replicate (2 + pdu.pdu_size) (drain_op.read [1, 0]))
          = some (self1, remaining self) ∧
        self1.state = WAITING_FOR_PDU ∧ self1.pdu = none ∧
        drain_destroyed K self (List.replicate (2 + pdu.pdu_size) (drain_op.read [1, 0]))
          = [pdu])) ∧
    ((∀ k, k < max 2 (pdu.pdu_size + 1) → ∃ self1 out,
        drain K self (List.replicate k (drain_op.read [1, 1])) = some (self1, out) ∧
        self1.state ≠ WAITING_FOR_PDU) ∧
     (∃ self1,
        drain K self (List.replicate (max 2 (pdu.pdu_size + 1)) (drain_op.read [1, 1]))
          = some (self1, remaining self) ∧
        self1.state = WAITING_FOR_PDU ∧ self1.pdu = none ∧
        drain_destroyed K self
            (List.replicate (max 2 (pdu.pdu_size + 1)) (drain_op.read [1, 1]))
          = [pdu])) := by
  have n0 : 2 + (pdu.pdu_size - 0) = 2 + pdu.pdu_size := by omega
  have n1 : 2 + (pdu.pdu_size - 1) = max 2 (pdu.pdu_size + 1) := by omega
  obtain ⟨a1, a2⟩ := one_byte_calls K self pdu 0 h hs hb hp
  obtain ⟨b1, b2⟩ := one_byte_calls K self pdu 1 h hs hb hp
  rw [n0] at a1 a2
  rw [n1] at b1 b2
  refine ⟨⟨a1, ?_⟩, ⟨b1, ?_⟩⟩
  · obtain ⟨s1, o1, hd, hr⟩ := a2
    have hne : List.replicate (2 + pdu.pdu_size) (drain_op.read [1, 0]) ≠ [] := by
      rw [show 2 + pdu.pdu_size = (pdu.pdu_size + 1) + 1 by omega, List.replicate_succ]
      exact List.cons_ne_nil _ _
    obtain ⟨ho, hdes⟩ := drained_at_rest K self s1 _ o1 h hne hd hr
    subst ho
    exact ⟨s1, hd, hr.1, hr.2, by rw [hdes, hp]; rfl⟩
  · obtain ⟨s1, o1, hd, hr⟩ := b2
    have hne : List.replicate (max 2 (pdu.pdu_size + 1)) (drain_op.read [1, 1]) ≠ [] := by
      rw [← n1, show 2 + (pdu.pdu_size - 1) = (pdu.pdu_size - 1 + 1) + 1 by omega,
        List.replicate_succ]
      exact List.cons_ne_nil _ _
    obtain ⟨ho, hdes⟩ := drained_at_rest K self s1 _ o1 h hne hd hr
    subst ho
    exact ⟨s1, hd, hr.1, hr.2, by rw [hdes, hp]; rfl⟩

/-- C15, amended, at the sample encoder whose header `00 03` is unconsumed:
with room for one byte in a call the encoder is idle after exactly
`2 + 3 = 5` reads, and not idle after 4. -/
theorem one_byte_sink_witness :
    (in_flight sample_header ∧ sample_header.state = READING_HEADER ∧
      sample_header.bytes_left = 2 ∧ sample_header.pdu = some pdu_abc) ∧
    (∃ self1,
      drain sample_consts sample_header
          (List.replicate (2 + pdu_abc.pdu_size) (drain_op.read [1, 0]))
        = some (self1, remaining sample_header) ∧
      self1.state = WAITING_FOR_PDU ∧ self1.pdu = none ∧
      drain_destroyed sample_consts sample_header
          (List.replicate (2 + pdu_abc.pdu_size) (drain_op.read [1, 0]))
        = [pdu_abc]) ∧
    (∃ self1 out,
      drain sample_consts sample_header (List.replicate 4 (drain_op.read [1, 0]))
        = some (self1, out) ∧ self1.state ≠ WAITING_FOR_PDU) :=
  ⟨⟨by decide, rfl, rfl, rfl⟩,
   (one_byte_sink sample_consts sample_header pdu_abc (by decide) rfl rfl rfl).1.2,
   (one_byte_sink sample_consts sample_header pdu_abc (by decide) rfl rfl rfl).1.1 4
     (by decide)⟩

end zkernel
